import Mathlib

/-!
# Verification of the service-spoof JA4 fingerprint engine

Shallow embedding of the TLS ClientHello capture and JA4 fingerprint code of
the `service-spoof` repository:

* `internal/fingerprint` (ParseJA4 and its helpers, the JA4 correlation store),
* `internal/middleware/connection.go` (the stream assembler wrapping a
  connection's read path).

Byte buffers are modelled as `List Nat` (each element a byte value), machine
integers as `Nat` with explicit `% 2^16` / `% 2^32` where the Go code uses
`uint16` / `uint32` arithmetic, and fallible Go functions as `Except`.
Go's offset-based scanning of an immutable payload is rendered with suffix
cursors: advancing `offset += k` corresponds to `List.drop k`, and a bounds
check `offset + k > len(payload)` to `rest.length < k` on the current suffix.
An out-of-range slice access (a Go runtime panic) is modelled by the
distinguished outcome `ParseErr.oob`, kept separate from the parse errors the
Go code returns as `error` values.
-/

namespace SpoofJA4

/-- Outcome of a failed parse: either an `error` value returned by the Go code
(with its message text) or an out-of-bounds slice access (a runtime panic). -/
inductive ParseErr where
  | msg : String → ParseErr
  | oob : ParseErr
deriving Repr, DecidableEq

/-- `IsGreaseValue` from `fingerprint` (voukatas/go-ja4 port): the low nibble of
both bytes is 0xA and the high byte equals the low byte. -/
def IsGreaseValue (val : Nat) : Bool :=
  (val &&& 0x0f0f == 0x0a0a) && ((val >>> 8) % 256 == val % 256)

/-- `IsAlnum` from `fingerprint`: `unicode.IsLetter(rune(b)) || unicode.IsDigit(rune(b))`
specialised to byte arguments (code points 0–255, i.e. ASCII plus Latin-1). -/
def IsAlnum (b : Nat) : Bool :=
  decide ((48 ≤ b ∧ b ≤ 57) ∨ (65 ≤ b ∧ b ≤ 90) ∨ (97 ≤ b ∧ b ≤ 122) ∨
    b = 0xAA ∨ b = 0xB5 ∨ b = 0xBA ∨ (0xC0 ≤ b ∧ b ≤ 0xD6) ∨
    (0xD8 ≤ b ∧ b ≤ 0xF6) ∨ (0xF8 ≤ b ∧ b ≤ 0xFF))

/-- `MapTLSVersion` from `fingerprint`: the version-code table of the JA4
string, including the `0x0002 → "s2"` (SSL 2.0) branch present in the code. -/
def MapTLSVersion (version : Nat) : String :=
  match version with
  | 0x0304 => "13"
  | 0x0303 => "12"
  | 0x0302 => "11"
  | 0x0301 => "10"
  | 0x0300 => "s3"
  | 0x0002 => "s2"
  | 0xfefd => "d2"
  | 0xfeff => "d1"
  | 0xfefc => "d3"
  | _ => "00"

/-- One lowercase hexadecimal digit. -/
def hexDigit (n : Nat) : Char :=
  Char.ofNat (if n < 10 then 48 + n else 87 + n)

/-- `fmt.Sprintf("%04x", val)` for a `uint16` value: four lowercase hex digits. -/
def hex4 (n : Nat) : String :=
  String.mk [hexDigit (n / 4096 % 16), hexDigit (n / 256 % 16),
             hexDigit (n / 16 % 16), hexDigit (n % 16)]

/-- `BuildHexList` from `fingerprint`: 4-hex-digit renderings joined by commas. -/
def BuildHexList (values : List Nat) : String :=
  String.intercalate "," (values.map hex4)

/-- `fmt.Sprintf("%02d", n)` for the non-negative counts used in JA4 part A. -/
def pad2 (n : Nat) : String :=
  if n < 10 then "0" ++ toString n else toString n

/-! ## SHA-256 (FIPS 180-4), as used through Go's `crypto/sha256` -/

/-- Truncate to a 32-bit word. -/
def w32 (n : Nat) : Nat := n % 4294967296

/-- Rotate a 32-bit word right by `k`. -/
def rotr (k x : Nat) : Nat := w32 ((x >>> k) ||| (x <<< (32 - k)))

def shaCh (e f g : Nat) : Nat := (e &&& f) ^^^ ((e ^^^ 0xffffffff) &&& g)

def shaMaj (a b c : Nat) : Nat := (a &&& b) ^^^ (a &&& c) ^^^ (b &&& c)

def bsig0 (x : Nat) : Nat := rotr 2 x ^^^ rotr 13 x ^^^ rotr 22 x

def bsig1 (x : Nat) : Nat := rotr 6 x ^^^ rotr 11 x ^^^ rotr 25 x

def ssig0 (x : Nat) : Nat := rotr 7 x ^^^ rotr 18 x ^^^ (x >>> 3)

def ssig1 (x : Nat) : Nat := rotr 17 x ^^^ rotr 19 x ^^^ (x >>> 10)

/-- The SHA-256 round constants. -/
def shaK : List Nat :=
  [0x428A2F98, 0x71374491, 0xB5C0FBCF, 0xE9B5DBA5, 0x3956C25B, 0x59F111F1,
   0x923F82A4, 0xAB1C5ED5, 0xD807AA98, 0x12835B01, 0x243185BE, 0x550C7DC3,
   0x72BE5D74, 0x80DEB1FE, 0x9BDC06A7, 0xC19BF174, 0xE49B69C1, 0xEFBE4786,
   0x0FC19DC6, 0x240CA1CC, 0x2DE92C6F, 0x4A7484AA, 0x5CB0A9DC, 0x76F988DA,
   0x983E5152, 0xA831C66D, 0xB00327C8, 0xBF597FC7, 0xC6E00BF3, 0xD5A79147,
   0x06CA6351, 0x14292967, 0x27B70A85, 0x2E1B2138, 0x4D2C6DFC, 0x53380D13,
   0x650A7354, 0x766A0ABB, 0x81C2C92E, 0x92722C85, 0xA2BFE8A1, 0xA81A664B,
   0xC24B8B70, 0xC76C51A3, 0xD192E819, 0xD6990624, 0xF40E3585, 0x106AA070,
   0x19A4C116, 0x1E376C08, 0x2748774C, 0x34B0BCB5, 0x391C0CB3, 0x4ED8AA4A,
   0x5B9CCA4F, 0x682E6FF3, 0x748F82EE, 0x78A5636F, 0x84C87814, 0x8CC70208,
   0x90BEFFFA, 0xA4506CEB, 0xBEF9A3F7, 0xC67178F2]

/-- The SHA-256 initial hash value. -/
def shaH0 : List Nat :=
  [0x6A09E667, 0xBB67AE85, 0x3C6EF372, 0xA54FF53A,
   0x510E527F, 0x9B05688C, 0x1F83D9AB, 0x5BE0CD19]

/-- SHA-256 message padding: `0x80`, zeros to 56 mod 64, 8-byte big-endian bit length. -/
def shaPad (msg : List Nat) : List Nat :=
  let len := msg.length
  let bitLen := 8 * len
  let z := (119 - len % 64) % 64
  msg ++ [0x80] ++ List.replicate z 0 ++
    [bitLen / 2 ^ 56 % 256, bitLen / 2 ^ 48 % 256, bitLen / 2 ^ 40 % 256,
     bitLen / 2 ^ 32 % 256, bitLen / 2 ^ 24 % 256, bitLen / 2 ^ 16 % 256,
     bitLen / 2 ^ 8 % 256, bitLen % 256]

/-- Split a byte list into 64-byte blocks (`fuel` bounds the number of blocks;
the wrapper `shaBlocks` supplies `l.length`, which always suffices). -/
def shaBlocksGo : Nat → List Nat → List (List Nat)
  | 0, _ => []
  | fuel + 1, l => if l = [] then [] else l.take 64 :: shaBlocksGo fuel (l.drop 64)

/-- Split a byte list into 64-byte blocks. -/
def shaBlocks (l : List Nat) : List (List Nat) :=
  shaBlocksGo l.length l

/-- Combine bytes into big-endian 32-bit words. -/
def shaWords : List Nat → List Nat
  | b0 :: b1 :: b2 :: b3 :: rest =>
      (b0 * 16777216 + b1 * 65536 + b2 * 256 + b3) :: shaWords rest
  | _ => []

/-- Next word of the SHA-256 message schedule. -/
def shaNextWord (w : List Nat) : Nat :=
  w32 (w.getD (w.length - 16) 0 + ssig0 (w.getD (w.length - 15) 0) +
       w.getD (w.length - 7) 0 + ssig1 (w.getD (w.length - 2) 0))

/-- Extend the 16-entry schedule by `k` further words. -/
def shaExtend (w : List Nat) : Nat → List Nat
  | 0 => w
  | k + 1 => shaExtend (w ++ [shaNextWord w]) k

/-- One SHA-256 compression round. -/
def shaRound : (Nat × Nat × Nat × Nat × Nat × Nat × Nat × Nat) → Nat × Nat →
    (Nat × Nat × Nat × Nat × Nat × Nat × Nat × Nat)
  | (a, b, c, d, e, f, g, h), (k, wi) =>
      let t1 := w32 (h + bsig1 e + shaCh e f g + k + wi)
      let t2 := w32 (bsig0 a + shaMaj a b c)
      (w32 (t1 + t2), a, b, c, w32 (d + t1), e, f, g)

/-- Process one 64-byte block. -/
def shaCompress (hs : List Nat) (block : List Nat) : List Nat :=
  let w := shaExtend (shaWords block) 48
  let init := (hs.getD 0 0, hs.getD 1 0, hs.getD 2 0, hs.getD 3 0,
               hs.getD 4 0, hs.getD 5 0, hs.getD 6 0, hs.getD 7 0)
  let r := (shaK.zip w).foldl shaRound init
  match r with
  | (a, b, c, d, e, f, g, h) =>
      [w32 (hs.getD 0 0 + a), w32 (hs.getD 1 0 + b), w32 (hs.getD 2 0 + c),
       w32 (hs.getD 3 0 + d), w32 (hs.getD 4 0 + e), w32 (hs.getD 5 0 + f),
       w32 (hs.getD 6 0 + g), w32 (hs.getD 7 0 + h)]

/-- SHA-256 of a byte sequence, as a list of 32 bytes. -/
def sha256 (msg : List Nat) : List Nat :=
  let hs := (shaBlocks (shaPad msg)).foldl shaCompress shaH0
  hs.flatMap fun h => [h / 16777216 % 256, h / 65536 % 256, h / 256 % 256, h % 256]

/-- UTF-8 encoding of one character (Go strings are UTF-8 byte sequences). -/
def utf8Bytes (c : Char) : List Nat :=
  let n := c.toNat
  if n < 0x80 then [n]
  else if n < 0x800 then [0xC0 + n / 64, 0x80 + n % 64]
  else if n < 0x10000 then [0xE0 + n / 4096, 0x80 + n / 64 % 64, 0x80 + n % 64]
  else [0xF0 + n / 262144, 0x80 + n / 4096 % 64, 0x80 + n / 64 % 64, 0x80 + n % 64]

/-- The bytes of a string, as Go's `[]byte(s)` produces them. -/
def strBytes (s : String) : List Nat :=
  s.data.flatMap utf8Bytes

/-- Lowercase hex rendering of a byte list (`fmt.Sprintf("%x", bytes)`). -/
def bytesToHex (l : List Nat) : String :=
  String.mk (l.flatMap fun b => [hexDigit (b / 16 % 16), hexDigit (b % 16)])

/-- `ComputeTruncatedSHA256` from `fingerprint`: hex of the first 6 bytes of the
SHA-256 digest, i.e. the first 12 hex characters. -/
def ComputeTruncatedSHA256 (data : String) : String :=
  bytesToHex ((sha256 (strBytes data)).take 6)

/-! ## The raw-byte ClientHello parser (`ParseJA4` in `fingerprint`)

The Go function scans a single immutable `payload` with an integer `offset`.
Here the current position is the suffix `payload.drop offset`; every bounds
check of the form `offset + k > len(payload)` becomes `rest.length < k` on
that suffix, and `offset = extDataEnd` becomes dropping the extension's bytes.
-/

/-- The accumulator threaded through `ParseJA4`'s extension loop
(lines 190–197 of the Go source): extension type codes kept for `JA4_c`,
the count including SNI/ALPN, the SNI flag, the ALPN marker bytes, the
signature-algorithm codes with their count, and the supported-versions state.
`alpn` holds the raw bytes of the Go `alpn` string (initially `"00"`). -/
structure ScanAcc where
  extensions : List Nat
  extCount : Nat
  sniFound : Bool
  alpn : List Nat
  sigAlgs : List Nat
  sigAlgoCount : Nat
  svFound : Bool
  highest : Nat
deriving Repr, DecidableEq

/-- The initial extension-loop accumulator (`alpn := "00"`). -/
def initAcc : ScanAcc := ⟨[], 0, false, [48, 48], [], 0, false, 0⟩

/-- The cipher-suite read loop (`for i := 0; i < cipherSuitesLen; i += 2`):
big-endian 16-bit codes, GREASE values dropped, wire order preserved.  Reading
past the available bytes is the Go slice-bounds fault, modelled as `.oob`. -/
def cipherScan : List Nat → Nat → List Nat → Except ParseErr (List Nat)
  | _, 0, acc => .ok acc
  | a :: b :: rest, 1, acc =>
      let c := a * 256 + b
      cipherScan rest 0 (if IsGreaseValue c then acc else acc ++ [c])
  | a :: b :: rest, cnt + 2, acc =>
      let c := a * 256 + b
      cipherScan rest cnt (if IsGreaseValue c then acc else acc ++ [c])
  | _, _ + 1, _ => .error .oob

/-- The signature-algorithms read loop (`for j := 0; j < sigAlgsLen; j += 2`):
GREASE values dropped, wire order preserved, count tracked alongside. -/
def sigScan : List Nat → Nat → List Nat → Nat → Except ParseErr (List Nat × Nat)
  | _, 0, sigs, c => .ok (sigs, c)
  | a :: b :: rest, 1, sigs, c =>
      let v := a * 256 + b
      if IsGreaseValue v then sigScan rest 0 sigs c
      else sigScan rest 0 (sigs ++ [v]) (c + 1)
  | a :: b :: rest, cnt + 2, sigs, c =>
      let v := a * 256 + b
      if IsGreaseValue v then sigScan rest cnt sigs c
      else sigScan rest cnt (sigs ++ [v]) (c + 1)
  | _, _ + 1, _, _ => .error .oob

/-- The supported-versions read loop (`for j := 0; j < svLen; j += 2`), which
`break`s (rather than failing) once fewer than two bytes remain before the
extension-data end; tracks the highest non-GREASE version seen. -/
def svScan : List Nat → Nat → Nat → Nat
  | _, 0, best => best
  | a :: b :: rest, 1, best =>
      let v := a * 256 + b
      svScan rest 0 (if ¬ IsGreaseValue v ∧ best < v then v else best)
  | a :: b :: rest, cnt + 2, best =>
      let v := a * 256 + b
      svScan rest cnt (if ¬ IsGreaseValue v ∧ best < v then v else best)
  | _, _ + 1, best => best

/-- The ALPN branch of the extension loop (`extType == 0x0010 && extLen > 0`).
`data` is the extension's declared byte region, `extLen` its declared length;
each Go check `alpnOffset + k > extDataEnd` appears as the equivalent
comparison against `extLen`. -/
def alpnStep (extType extLen : Nat) (data : List Nat) (acc : ScanAcc) :
    Except ParseErr ScanAcc :=
  if extType = 0x0010 ∧ extLen > 0 then
    if extLen < 2 then .error (.msg "payload too short for ALPN list length")
    else
      let alpnListLen := data.getD 0 0 * 256 + data.getD 1 0
      if 2 + alpnListLen > extLen then .error (.msg "incomplete ALPN list")
      else if alpnListLen > 0 then
        if 3 > extLen then .error (.msg "payload too short for ALPN string length")
        else
          let alpnStrLen := data.getD 2 0
          if 3 + alpnStrLen > extLen then .error (.msg "incomplete ALPN string")
          else if alpnStrLen > 0 then
            let alpnValue := (data.drop 3).take alpnStrLen
            if ¬ IsAlnum (alpnValue.getD 0 0) then .ok { acc with alpn := [57, 57] }
            else .ok { acc with alpn := alpnValue }
          else .ok acc
      else .ok acc
  else .ok acc

/-- The signature-algorithms branch (`extType == 0x000d`).  `tail` is the
payload suffix starting at the extension data (the Go read loop indexes the
payload directly, so with an odd declared length it may read past the
extension's end, and past the buffer end — the `.oob` case of `sigScan`). -/
def sigStep (extType extLen : Nat) (data tail : List Nat) (acc : ScanAcc) :
    Except ParseErr ScanAcc :=
  if extType = 0x000d then
    if extLen < 2 then .error (.msg "payload too short for signature algorithms length")
    else
      let sigAlgsLen := data.getD 0 0 * 256 + data.getD 1 0
      if 2 + sigAlgsLen > extLen then .error (.msg "incomplete signature algorithms data")
      else do
        let (sigs, c) ← sigScan (tail.drop 2) sigAlgsLen acc.sigAlgs acc.sigAlgoCount
        .ok { acc with sigAlgs := sigs, sigAlgoCount := c }
  else .ok acc

/-- The supported-versions branch (`extType == 0x002b`): records that the
extension was seen, then folds the highest non-GREASE version. -/
def svStep (extType extLen : Nat) (data : List Nat) (acc : ScanAcc) :
    Except ParseErr ScanAcc :=
  if extType = 0x002b then
    let acc := { acc with svFound := true }
    if extLen < 1 then .error (.msg "payload too short for supported versions length")
    else
      let svLen := data.getD 0 0
      if 1 + svLen > extLen then .error (.msg "incomplete supported versions data")
      else .ok { acc with highest := svScan (data.drop 1) svLen acc.highest }
  else .ok acc

/-- Processing of one non-GREASE extension: count it, keep its type code unless
SNI or ALPN, set the SNI flag, then the ALPN / signature-algorithms /
supported-versions branches in the order of the Go source. -/
def preExt (extType : Nat) (acc : ScanAcc) : ScanAcc :=
  { acc with
    extCount := acc.extCount + 1,
    extensions := if extType ≠ 0x0000 ∧ extType ≠ 0x0010 then
      acc.extensions ++ [extType] else acc.extensions,
    sniFound := if extType = 0x0000 then true else acc.sniFound }

def processExt (extType extLen : Nat) (data tail : List Nat) (acc : ScanAcc) :
    Except ParseErr ScanAcc := do
  let acc ← alpnStep extType extLen data (preExt extType acc)
  let acc ← sigStep extType extLen data tail acc
  svStep extType extLen data acc

/-- The extension loop (`for offset+4 <= extensionsEnd && offset+4 <= len(payload)`).
`bytes` is the payload suffix at the current offset and `blockRem` the distance
`extensionsEnd - offset`.  An extension whose declared length reaches past the
extensions block or the buffer end `break`s out of the loop, returning the
accumulator gathered so far; GREASE-typed extensions are skipped whole. -/
def scanExtGo : Nat → List Nat → Nat → ScanAcc → Except ParseErr ScanAcc
  | 0, _, _, acc => .ok acc
  | fuel + 1, bytes, blockRem, acc =>
    if 4 ≤ blockRem ∧ 4 ≤ bytes.length then
      let extType := bytes.getD 0 0 * 256 + bytes.getD 1 0
      let extLen := bytes.getD 2 0 * 256 + bytes.getD 3 0
      let tail := bytes.drop 4
      if extLen > blockRem - 4 ∨ extLen > tail.length then .ok acc
      else if IsGreaseValue extType then
        scanExtGo fuel (tail.drop extLen) (blockRem - 4 - extLen) acc
      else do
        let acc' ← processExt extType extLen (tail.take extLen) tail acc
        scanExtGo fuel (tail.drop extLen) (blockRem - 4 - extLen) acc'
    else .ok acc

/-- Wrapper supplying the fuel: each loop iteration consumes at least four
bytes of the suffix, so `bytes.length` steps always suffice. -/
def scanExtensions (bytes : List Nat) (blockRem : Nat) (acc : ScanAcc) :
    Except ParseErr ScanAcc :=
  scanExtGo bytes.length bytes blockRem acc

/-- The cipher-suites segment of `ParseJA4` (lines 155–174): `r1` is the
payload suffix at the 2-byte cipher-suites length field.  Returns the
GREASE-filtered cipher list and the suffix following the cipher bytes. -/
def parseCiphers (r1 : List Nat) : Except ParseErr (List Nat × List Nat) :=
  if r1.length < 2 then .error (.msg "payload too short for cipher suites length")
  else
    let cipherSuitesLen := r1.getD 0 0 * 256 + r1.getD 1 0
    let r2 := r1.drop 2
    if r2.length < cipherSuitesLen then .error (.msg "incomplete cipher suites data")
    else do
      let ciphers ← cipherScan r2 cipherSuitesLen []
      .ok (ciphers, r2.drop cipherSuitesLen)

/-- The compression-methods skip and the extensions block of `ParseJA4`
(lines 176–306): `r3` is the payload suffix at the 1-byte compression-methods
length field. -/
def parseExtensionsBlock (r3 : List Nat) : Except ParseErr ScanAcc :=
  if r3.length < 1 then .error (.msg "payload too short for compression methods length")
  else
    let compressionMethodsLen := r3.getD 0 0
    let r4 := r3.drop (1 + compressionMethodsLen)
    if r4.length < 2 then .error (.msg "payload too short for extensions length")
    else
      let extensionsLen := r4.getD 0 0 * 256 + r4.getD 1 0
      scanExtensions (r4.drop 2) extensionsLen initAcc

/-- The structural decoding stage of `ParseJA4` (lines 102–306): the handshake
header and fixed fields, then the cipher-suites segment and the extensions
block, yielding the legacy client version, the GREASE-filtered cipher list and
the extension-scan accumulator. -/
def parseFields (payload : List Nat) :
    Except ParseErr (Nat × List Nat × ScanAcc) :=
  if payload.length < 9 then .error (.msg "payload too short")
  else
    let handshakeType := payload.getD 5 0
    let handshakeLength := payload.getD 6 0 * 65536 + payload.getD 7 0 * 256 + payload.getD 8 0
    if handshakeType ≠ 0x01 then .error (.msg "not a Client Hello message")
    else if payload.length < 9 + handshakeLength then
      .error (.msg ("imcomplete Client Hello message, payload length: " ++
        toString payload.length ++ ", handshake length + offset: " ++
        toString (9 + handshakeLength)))
    else if payload.length < 11 then .error (.msg "payload too short for client version")
    else
      let clientVersion := payload.getD 9 0 * 256 + payload.getD 10 0
      if payload.length < 43 then .error (.msg "payload too short for server random")
      else if payload.length < 44 then .error (.msg "payload too short for session ID length")
      else
        let sessionIDLen := payload.getD 43 0
        do
          let cr ← parseCiphers (payload.drop (44 + sessionIDLen))
          let acc ← parseExtensionsBlock cr.2
          .ok (clientVersion, cr.1, acc)

/-- Ascending insertion into a sorted list. -/
def insertNat (x : Nat) : List Nat → List Nat
  | [] => [x]
  | y :: ys => if x ≤ y then x :: y :: ys else y :: insertNat x ys

/-- Ascending numeric sort (`sort.Slice(_, func(i,j) { return l[i] < l[j] })`). -/
def sortNat : List Nat → List Nat
  | [] => []
  | x :: xs => insertNat x (sortNat xs)

/-- The string-building stage of `ParseJA4` (lines 308–381): version code,
SNI indicator, capped counts, ALPN marker characters, and the two truncated
hashes with their empty-list sentinels. -/
def buildJA4 (protocol clientVersion : Nat) (ciphers : List Nat) (a : ScanAcc) : String :=
  let tlsVersion := if a.svFound then MapTLSVersion a.highest
                    else MapTLSVersion clientVersion
  let sniIndicator := if a.sniFound then "d" else "i"
  let cipherCountDisplay := min ciphers.length 99
  let totalExtensionCount := min a.extCount 99
  let alpnFirstChar := if a.alpn.length > 0 then Char.ofNat (a.alpn.getD 0 0) else '0'
  let alpnLastChar :=
    if a.alpn.length > 0 then Char.ofNat (a.alpn.getD (a.alpn.length - 1) 0) else '0'
  let cipherStr := BuildHexList (sortNat ciphers)
  let ja4b := if ciphers.length = 0 then "000000000000" else ComputeTruncatedSHA256 cipherStr
  let extStr := BuildHexList (sortNat a.extensions) ++
    (if a.sigAlgoCount > 0 then "_" ++ BuildHexList a.sigAlgs else "")
  let ja4c := if a.extensions.length = 0 then "000000000000" else ComputeTruncatedSHA256 extStr
  String.mk [Char.ofNat protocol] ++ tlsVersion ++ sniIndicator ++
    pad2 cipherCountDisplay ++ pad2 totalExtensionCount ++
    String.mk [alpnFirstChar, alpnLastChar] ++ "_" ++ ja4b ++ "_" ++ ja4c

/-- `ParseJA4` from `fingerprint`: decode the raw record bytes, then build the
JA4 string (the Go function writes the protocol byte first and the rest after
the scan; the composition below is that same data flow). -/
def ParseJA4 (payload : List Nat) (protocol : Nat) : Except ParseErr String :=
  (parseFields payload).map fun r => buildJA4 protocol r.1 r.2.1 r.2.2

/-! ## The stream assembler (`TlsClientHelloConn` in `internal/middleware/connection.go`) -/

/-- Minimal hexadecimal rendering of a number (`fmt.Sprintf("%x", n)`),
used in the assembler's error messages. -/
def hexMinGo : Nat → Nat → List Char
  | 0, _ => []
  | fuel + 1, n => if n = 0 then [] else hexMinGo fuel (n / 16) ++ [hexDigit (n % 16)]

/-- `fmt.Sprintf("%x", n)` for a non-negative integer. -/
def hexMin (n : Nat) : String :=
  if n = 0 then "0" else String.mk (hexMinGo n n)

/-- The mutable per-connection state of `TlsClientHelloConn`: the accumulation
buffer, the `uint16` field `handshakeSize` (zero until the record header has
been decoded) and the `fingerprint` string (empty until set). -/
structure ConnState where
  buffer : List Nat
  handshakeSize : Nat
  fingerprint : String
deriving Repr, DecidableEq

/-- `hasCompletedClientHello`: reports whether the buffer holds at least
`handshakeSize` bytes, truncating it to exactly `handshakeSize` when it holds
more (the surplus belongs to subsequent records).  The possibly-truncated
state is returned alongside the flag. -/
def hasCompletedClientHello (c : ConnState) : Bool × ConnState :=
  if c.buffer.length = 0 ∨ c.handshakeSize = 0 then (false, c)
  else if c.buffer.length < c.handshakeSize then (false, c)
  else if c.buffer.length > c.handshakeSize then
    (true, { c with buffer := c.buffer.take c.handshakeSize })
  else (true, c)

/-- `ParseClientHello`: validate the 5-byte record header (handshake record
type `0x16`, protocol version within `tls.VersionSSL30 = 0x0300` to
`tls.VersionTLS13 = 0x0304`) and set `handshakeSize` to `5` plus the 2-byte
record length — a `uint16` sum, hence the `% 65536`.  Returns the updated
state and the `error` result. -/
def ParseClientHello (c : ConnState) : ConnState × Option String :=
  let (done, c) := hasCompletedClientHello c
  if done then (c, none)
  else if c.buffer.length < 5 then (c, some "incomplete client hello")
  else
    let recType := c.buffer.getD 0 0
    if recType ≠ 0x16 then
      (c, some ("tls record type 0x" ++ hexMin recType ++ " is not a handshake"))
    else
      let vers := c.buffer.getD 1 0 * 256 + c.buffer.getD 2 0
      if vers < 0x0300 ∨ vers > 0x0304 then
        (c, some ("unknown tls version: 0x" ++ hexMin vers))
      else
        let handshakeLen := c.buffer.getD 3 0 * 256 + c.buffer.getD 4 0
        let c := { c with handshakeSize := (5 + handshakeLen) % 65536 }
        ((hasCompletedClientHello c).2, none)

/-- One execution of `TlsClientHelloConn.Read` observing `chunk` (the bytes the
underlying `Conn.Read` delivered; an empty chunk stands for `n == 0` or a read
error, which the interception branch ignores).  When the fingerprint is still
unset: if the buffer is already complete, run `ParseJA4` on it and store the
fingerprint — or the error's message text when parsing fails; a Go runtime
panic (`.oob`) yields no successor state.  Otherwise append the chunk and run
`ParseClientHello`, discarding its error as the code does. -/
def readStep (c : ConnState) (chunk : List Nat) : Option ConnState :=
  if c.fingerprint = "" ∧ chunk ≠ [] then
    let (done, c1) := hasCompletedClientHello c
    if done then
      match ParseJA4 c1.buffer 116 with
      | .ok f => some { c1 with fingerprint := f }
      | .error (.msg e) => some { c1 with fingerprint := e }
      | .error .oob => none
    else
      let c2 := { c1 with buffer := c1.buffer ++ chunk }
      some (ParseClientHello c2).1
  else some c

/-- A fresh connection's state. -/
def initConn : ConnState := ⟨[], 0, ""⟩

/-- The connection state after observing a sequence of read chunks. -/
def readConn (c : ConnState) (chunks : List (List Nat)) : Option ConnState :=
  chunks.foldlM readStep c

/-- `ConnContextFingerprint`: the value placed in the per-request context is
(a pointer to) the connection's `fingerprint` field. -/
def ConnContextFingerprint (c : ConnState) : String :=
  c.fingerprint

/-! ## The correlation store (`JA4Store` in `internal/fingerprint/store.go`)

The map is modelled as an association list with at most one entry per key;
`time.Time` instants and the TTL are `Int` (nanoseconds), with
`time.Since(ts) = now - ts`.  The value type is abstract: the Go store holds
`*JA4Fingerprint` pointers it never inspects. -/

/-- `JA4Store.Set`: store `(fp, now)` under `remoteAddr`, replacing any
previous entry for that key (Go map assignment). -/
def storeSet {V : Type} (data : List (String × V × Int)) (remoteAddr : String)
    (fp : V) (now : Int) : List (String × V × Int) :=
  (remoteAddr, fp, now) :: data.filter fun e => e.1 ≠ remoteAddr

/-- `JA4Store.Get`: return the stored fingerprint unless the entry is missing
or strictly older than `ttl` (`time.Since(stored.timestamp) > s.ttl`). -/
def storeGet {V : Type} (ttl : Int) (data : List (String × V × Int))
    (remoteAddr : String) (now : Int) : Option V :=
  match data.find? (fun e => e.1 = remoteAddr) with
  | none => none
  | some (_, fp, ts) => if now - ts > ttl then none else some fp

/-- `JA4Store.removeExpired`: the sweep body, deleting every entry strictly
older than `ttl`. -/
def removeExpired {V : Type} (ttl : Int) (data : List (String × V × Int))
    (now : Int) : List (String × V × Int) :=
  data.filter fun e => ¬ (now - e.2.2 > ttl)

/-! ## A wire serializer for ClientHello messages

Used to state the relational claims (GREASE invariance, truncated extension
scans): `serialize` builds the exact byte layout `ParseJA4` consumes, with
every length field derived from the serialized content. -/

/-- Big-endian 2-byte rendering of a 16-bit value. -/
def u16be (n : Nat) : List Nat := [n / 256 % 256, n % 256]

/-- Big-endian 3-byte rendering of a 24-bit value. -/
def u24be (n : Nat) : List Nat := [n / 65536 % 256, n / 256 % 256, n % 256]

/-- One extension on the wire: a type code and its payload bytes. -/
structure ExtSpec where
  t : Nat
  payload : List Nat
deriving Repr, DecidableEq

/-- `{2-byte type, 2-byte length, payload}`. -/
def serializeExt (e : ExtSpec) : List Nat :=
  u16be e.t ++ u16be e.payload.length ++ e.payload

/-- The extensions block: each extension serialized in order. -/
def extBytes (exts : List ExtSpec) : List Nat :=
  exts.flatMap serializeExt

/-- An abstract ClientHello: the fields the wire layout is built from. -/
structure HelloSpec where
  version : Nat
  sessionId : List Nat
  ciphers : List Nat
  comps : List Nat
  exts : List ExtSpec
deriving Repr, DecidableEq

/-- The handshake-message body with a given raw extensions block: client
version, 32-byte random, session id, cipher suites, compression methods, then
the block prefixed by its 2-byte length. -/
def helloBody (h : HelloSpec) (block : List Nat) : List Nat :=
  u16be h.version ++ List.replicate 32 0 ++
  [h.sessionId.length] ++ h.sessionId ++
  u16be (2 * h.ciphers.length) ++ h.ciphers.flatMap u16be ++
  [h.comps.length] ++ h.comps ++
  u16be block.length ++ block

/-- The full record around a given extensions block: 5-byte record header
(handshake record, TLS 1.0 on the wire, record length), then the 4-byte
handshake header (ClientHello, 3-byte body length), then the body. -/
def serializeBlock (h : HelloSpec) (block : List Nat) : List Nat :=
  [0x16, 0x03, 0x01] ++ u16be (4 + (helloBody h block).length) ++
  [0x01] ++ u24be (helloBody h block).length ++ helloBody h block

/-- The full record of an abstract ClientHello, its extensions serialized. -/
def serialize (h : HelloSpec) : List Nat :=
  serializeBlock h (extBytes h.exts)

/-- The handshake-message body with the 2-byte extensions-length field taken
as an independent parameter, so a declared extensions-block length need not
match the bytes that actually follow it. -/
def helloBodyL (h : HelloSpec) (extLenField : Nat) (block : List Nat) : List Nat :=
  u16be h.version ++ List.replicate 32 0 ++
  [h.sessionId.length] ++ h.sessionId ++
  u16be (2 * h.ciphers.length) ++ h.ciphers.flatMap u16be ++
  [h.comps.length] ++ h.comps ++
  u16be extLenField ++ block

/-- The full record around `helloBodyL`: record header, handshake header,
then the body with a freely chosen extensions-length field. -/
def serializeBlockL (h : HelloSpec) (extLenField : Nat) (block : List Nat) : List Nat :=
  [0x16, 0x03, 0x01] ++ u16be (4 + (helloBodyL h extLenField block).length) ++
  [0x01] ++ u24be (helloBodyL h extLenField block).length ++ helloBodyL h extLenField block

/-- Structural validity of a special extension's payload: the bounds the
extension loop checks hold, and (for signature algorithms) the declared list
length is even, so its reads stay inside the payload. -/
def extDataOK (e : ExtSpec) : Prop :=
  (e.t = 0x0010 → e.payload ≠ [] →
    2 ≤ e.payload.length ∧
    2 + (e.payload.getD 0 0 * 256 + e.payload.getD 1 0) ≤ e.payload.length ∧
    (0 < e.payload.getD 0 0 * 256 + e.payload.getD 1 0 →
      3 + e.payload.getD 2 0 ≤ e.payload.length)) ∧
  (e.t = 0x000d →
    2 ≤ e.payload.length ∧
    2 + (e.payload.getD 0 0 * 256 + e.payload.getD 1 0) ≤ e.payload.length ∧
    (e.payload.getD 0 0 * 256 + e.payload.getD 1 0) % 2 = 0) ∧
  (e.t = 0x002b →
    1 ≤ e.payload.length ∧ 1 + e.payload.getD 0 0 ≤ e.payload.length)

instance (e : ExtSpec) : Decidable (extDataOK e) := by
  unfold extDataOK; infer_instance

/-- Well-formedness of an abstract ClientHello: all length fields fit their
wire encodings and every extension payload is structurally valid. -/
def BodyWF (h : HelloSpec) (block : List Nat) : Prop :=
  h.version < 65536 ∧
  h.sessionId.length < 256 ∧
  (∀ c ∈ h.ciphers, c < 65536) ∧
  2 * h.ciphers.length < 65536 ∧
  h.comps.length < 256 ∧
  block.length < 65536 ∧
  (helloBody h block).length < 16777216

instance (h : HelloSpec) (block : List Nat) : Decidable (BodyWF h block) := by
  unfold BodyWF; infer_instance

/-- Well-formedness of an abstract ClientHello: all length fields fit their
wire encodings and every extension payload is structurally valid. -/
def HelloWF (h : HelloSpec) : Prop :=
  BodyWF h (extBytes h.exts) ∧
  (∀ e ∈ h.exts, e.t < 65536 ∧ e.payload.length < 65536 ∧ extDataOK e)

instance (h : HelloSpec) : Decidable (HelloWF h) := by
  unfold HelloWF; infer_instance

/-- The fold the extension loop performs over a list of serialized
extensions: GREASE-typed extensions are skipped whole, any other extension is
processed with its own payload as both declared data and remaining tail. -/
def foldExts : List ExtSpec → ScanAcc → Except ParseErr ScanAcc
  | [], acc => .ok acc
  | e :: es, acc =>
      if IsGreaseValue e.t then foldExts es acc
      else do foldExts es (← processExt e.t e.payload.length e.payload e.payload acc)

/-- The highest-version fold of the supported-versions loop, over the already
decoded version list. -/
def svFold (vs : List Nat) (best : Nat) : Nat :=
  vs.foldl (fun b v => if ¬ IsGreaseValue v ∧ b < v then v else b) best

/-- The wire payload of a supported_versions extension carrying the version
list `vs`: a 1-byte list length followed by 2-byte big-endian entries. -/
def svPayload (vs : List Nat) : List Nat := 2 * vs.length :: vs.flatMap u16be

/-! ## Concrete byte sequences used in the claims -/

/-- The worked example of the specification: cipher suites
`[0x0A0A (GREASE), 0x1301, 0x1302]`, an SNI extension and a supported-versions
extension carrying `0x0304`, no ALPN, no signature algorithms. -/
def c6bytes : List Nat :=
  [0x16, 0x03, 0x01, 0x00, 0x3e,
   0x01, 0x00, 0x00, 0x3a,
   0x03, 0x03] ++ List.replicate 32 0 ++
  [0x00,
   0x00, 0x06, 0x0a, 0x0a, 0x13, 0x01, 0x13, 0x02,
   0x01, 0x00,
   0x00, 0x0b,
   0x00, 0x00, 0x00, 0x00,
   0x00, 0x2b, 0x00, 0x03, 0x02, 0x03, 0x04]

/-- A ClientHello whose legacy client version is `0x0002` (SSL 2.0), one
non-GREASE cipher `0x1301`, no extensions. -/
def c3bytes : List Nat :=
  [0x16, 0x03, 0x01, 0x00, 0x2f,
   0x01, 0x00, 0x00, 0x2b,
   0x00, 0x02] ++ List.replicate 32 0 ++
  [0x00,
   0x00, 0x02, 0x13, 0x01,
   0x01, 0x00,
   0x00, 0x00]

/-- A ClientHello carrying a signature_algorithms extension whose wire entries
are `[0x0A0A (GREASE), 0x0403]`, one cipher `0x1301`, no other extensions. -/
def c4bytes : List Nat :=
  [0x16, 0x03, 0x01, 0x00, 0x39,
   0x01, 0x00, 0x00, 0x35,
   0x03, 0x03] ++ List.replicate 32 0 ++
  [0x00,
   0x00, 0x02, 0x13, 0x01,
   0x01, 0x00,
   0x00, 0x0a,
   0x00, 0x0d, 0x00, 0x06, 0x00, 0x04, 0x0a, 0x0a, 0x04, 0x03]

/-- A ClientHello whose single extension header declares length `0x00ff` with
no bytes following it: that length field reads past the buffer end. -/
def c2bytes : List Nat :=
  [0x16, 0x03, 0x01, 0x00, 0x33,
   0x01, 0x00, 0x00, 0x2f,
   0x03, 0x03] ++ List.replicate 32 0 ++
  [0x00,
   0x00, 0x02, 0x13, 0x01,
   0x01, 0x00,
   0x00, 0x04,
   0x00, 0x0a, 0x00, 0xff]

/-- A buffer whose record header is valid but whose handshake-message type
byte is `0x02` (not ClientHello): record length `0x0010`, handshake length
field `0x000001`. -/
def c1buf : List Nat :=
  [0x16, 0x03, 0x01, 0x00, 0x10, 0x02, 0x00, 0x00, 0x01]

/-- A buffer declaring record length `0xFFFB = 65531`, so that
`5 + 65531 = 65536 ≡ 0 (mod 2^16)`, followed by 95 further bytes. -/
def c9buf : List Nat :=
  [0x16, 0x03, 0x01, 0xFF, 0xFB] ++ List.replicate 95 0

end SpoofJA4

namespace SpoofJA4

/-- The first buffered bytes fail the record-header validation: at least five
bytes, and either the record type is not the handshake tag `0x16` or the
protocol version lies outside the SSL 3.0–TLS 1.3 range. -/
def recordHeaderBad (l : List Nat) : Prop :=
  5 ≤ l.length ∧ (l.getD 0 0 ≠ 0x16 ∨
    l.getD 1 0 * 256 + l.getD 2 0 < 0x0300 ∨ 0x0304 < l.getD 1 0 * 256 + l.getD 2 0)

instance (l : List Nat) : Decidable (recordHeaderBad l) := by
  unfold recordHeaderBad; infer_instance

/-- Modelled from the spec's words (claim C3): the version-code mapping as the
specification states it, with no entry for `0x0002`.  Used only to compare
against the code's `MapTLSVersion`. -/
def specMapTLSVersionClaim (version : Nat) : String :=
  match version with
  | 0x0304 => "13"
  | 0x0303 => "12"
  | 0x0302 => "11"
  | 0x0301 => "10"
  | 0x0300 => "s3"
  | 0xfeff => "d1"
  | 0xfefd => "d2"
  | 0xfefc => "d3"
  | _ => "00"

/-- The last `n` characters of a string. -/
def lastChars (n : Nat) (s : String) : List Char := s.data.drop (s.data.length - n)

/-! ## General helper lemmas -/

theorem getD_agree {l m : List Nat} (h : l <+: m) {i : Nat} (hi : i < l.length) :
    m.getD i 0 = l.getD i 0 := by
  obtain ⟨t, rfl⟩ := h
  exact List.getD_append l t 0 i hi

theorem hasCompleted_handshakeSize (c : ConnState) :
    (hasCompletedClientHello c).2.handshakeSize = c.handshakeSize := by
  unfold hasCompletedClientHello
  split_ifs <;> rfl

theorem hasCompleted_fingerprint (c : ConnState) :
    (hasCompletedClientHello c).2.fingerprint = c.fingerprint := by
  unfold hasCompletedClientHello
  split_ifs <;> rfl

theorem parseClientHello_fingerprint (c : ConnState) :
    (ParseClientHello c).1.fingerprint = c.fingerprint := by
  unfold ParseClientHello
  have h1 := hasCompleted_fingerprint c
  rcases hc : hasCompletedClientHello c with ⟨done, c1⟩
  rw [hc] at h1
  simp only []
  cases done with
  | true => simpa using h1
  | false =>
    simp only [Bool.false_eq_true, if_false]
    split_ifs <;> try simpa using h1
    rw [hasCompleted_fingerprint]
    simpa using h1

/-! ## C6 — the worked example -/

/-- C6: the specific ClientHello with cipher suites
`[0x0A0A (GREASE), 0x1301, 0x1302]`, extensions `[SNI, supported_versions {0x0304}]`,
no ALPN and no signature algorithms yields Part A `"t13d020200"`, Part B the
first 12 hex characters of SHA-256 of `"1301,1302"` and Part C the first 12
hex characters of SHA-256 of `"002b"`, joined by underscores. -/
theorem C6_worked_example :
    ParseJA4 c6bytes 116 =
      .ok ("t13d020200_" ++ ComputeTruncatedSHA256 "1301,1302" ++ "_" ++
        ComputeTruncatedSHA256 "002b") :=
  rfl

/-! ## C7 — the correlation store -/

theorem find?_filter_ne {V : Type} (d : List (String × V × Int)) (k k' : String)
    (hne : k' ≠ k) :
    (d.filter fun e => e.1 ≠ k).find? (fun e => e.1 = k') =
      d.find? (fun e => e.1 = k') := by
  induction d with
  | nil => rfl
  | cons a d ih =>
    by_cases hak : a.1 = k
    · rw [List.filter_cons_of_neg (by simp [hak]),
        List.find?_cons_of_neg _ (by simp [hak]; exact fun hh => hne hh.symm), ih]
    · by_cases hak' : a.1 = k'
      · rw [List.filter_cons_of_pos (by simp [hak]),
          List.find?_cons_of_pos _ (by simpa using hak'),
          List.find?_cons_of_pos _ (by simpa using hak')]
      · rw [List.filter_cons_of_pos (by simp [hak]),
          List.find?_cons_of_neg _ (by simpa using hak'),
          List.find?_cons_of_neg _ (by simpa using hak'), ih]

/-- C7: `Set` overwrites any prior entry under the same key and leaves other
keys untouched; `Get` returns the stored fingerprint exactly when an entry
exists whose age does not exceed the TTL, and reports not-found (`none`,
never an error) otherwise; the sweep keeps exactly the entries whose age does
not exceed the TTL. -/
theorem C7_store_semantics {V : Type} (ttl : Int) (d : List (String × V × Int))
    (k k' : String) (fp : V) (now now' : Int) :
    ((storeSet d k fp now).find? (fun e => e.1 = k) = some (k, fp, now)) ∧
    (storeGet ttl (storeSet d k fp now) k now' =
      if now' - now > ttl then none else some fp) ∧
    (k' ≠ k → storeGet ttl (storeSet d k fp now) k' now' = storeGet ttl d k' now') ∧
    (∀ fp' : V, storeGet ttl d k now = some fp' ↔
      ∃ ts, d.find? (fun e => e.1 = k) = some (k, fp', ts) ∧ now - ts ≤ ttl) ∧
    (∀ e : String × V × Int, e ∈ removeExpired ttl d now ↔ e ∈ d ∧ now - e.2.2 ≤ ttl) := by
  have hset : (storeSet d k fp now).find? (fun e => e.1 = k) = some (k, fp, now) := by
    unfold storeSet
    rw [List.find?_cons_of_pos _ (by simp)]
  refine ⟨hset, ?_, ?_, ?_, ?_⟩
  · unfold storeGet
    rw [hset]
  · intro hne
    unfold storeGet storeSet
    rw [List.find?_cons_of_neg _ (by simp; exact fun hh => hne hh.symm),
      find?_filter_ne d k k' hne]
  · intro fp'
    unfold storeGet
    cases hf : d.find? (fun e => e.1 = k) with
    | none => simp
    | some a =>
      obtain ⟨a1, a2, a3⟩ := a
      have hk : a1 = k := by
        have := List.find?_some hf
        simpa using this
      subst hk
      dsimp only
      by_cases hexp : now - a3 > ttl
      · rw [if_pos hexp]
        constructor
        · intro hg; exact absurd hg (by simp)
        · rintro ⟨ts, hts, hle⟩
          injection hts with hts'
          obtain ⟨rfl, rfl⟩ : a2 = fp' ∧ a3 = ts := by
            constructor <;> cases hts' <;> rfl
          omega
      · rw [if_neg hexp]
        constructor
        · intro hg
          injection hg with hg'
          exact ⟨a3, by rw [hg'], by omega⟩
        · rintro ⟨ts, hts, hle⟩
          injection hts with hts'
          cases hts'
          rfl
  · intro e
    unfold removeExpired
    rw [List.mem_filter]
    constructor
    · rintro ⟨h1, h2⟩
      refine ⟨h1, ?_⟩
      simp at h2
      omega
    · rintro ⟨h1, h2⟩
      refine ⟨h1, ?_⟩
      simp
      omega

/-! ## C1 — what the assembler actually validates -/

/-- C1 counterexample: on a buffer whose handshake-message type byte is `0x02`
(not ClientHello), `ParseClientHello` neither aborts nor errors; it sets the
expected length to `5 +` the 2-byte record length (`21`), which differs from
`5 +` the 3-byte handshake-message length (`6`) the claim prescribes. -/
theorem C1_counterexample :
    (ParseClientHello ⟨c1buf, 0, ""⟩).2 = none ∧
    (ParseClientHello ⟨c1buf, 0, ""⟩).1.handshakeSize = 21 ∧
    c1buf.getD 5 0 ≠ 0x01 ∧
    (5 + (c1buf.getD 6 0 * 65536 + c1buf.getD 7 0 * 256 + c1buf.getD 8 0)) = 6 ∧
    (21 : Nat) ≠ 6 := by
  decide

/-- C1 amended: the assembler validates only the 5-byte record header and
never inspects the handshake-message header.  Whenever the record type is
`0x16` and the version is in range, it succeeds — regardless of the handshake
type byte — and sets the expected total length to `5` plus the 2-byte
big-endian record length, reduced modulo `2^16`. -/
theorem C1_amended (buf : List Nat) (fp : String) (h5 : 5 ≤ buf.length)
    (ht : buf.getD 0 0 = 0x16)
    (hv1 : 0x0300 ≤ buf.getD 1 0 * 256 + buf.getD 2 0)
    (hv2 : buf.getD 1 0 * 256 + buf.getD 2 0 ≤ 0x0304) :
    (ParseClientHello ⟨buf, 0, fp⟩).2 = none ∧
    (ParseClientHello ⟨buf, 0, fp⟩).1.handshakeSize =
      (5 + (buf.getD 3 0 * 256 + buf.getD 4 0)) % 65536 := by
  unfold ParseClientHello
  have hdone : hasCompletedClientHello ⟨buf, 0, fp⟩ = (false, ⟨buf, 0, fp⟩) := by
    unfold hasCompletedClientHello; simp
  rw [hdone]
  simp only [Bool.false_eq_true, if_false]
  rw [if_neg (by show ¬ (buf.length < 5); omega),
    if_neg (by show ¬ (buf.getD 0 0 ≠ 22); simp only [ne_eq, not_not]; exact ht),
    if_neg (by
      show ¬ (buf.getD 1 0 * 256 + buf.getD 2 0 < 768 ∨
        buf.getD 1 0 * 256 + buf.getD 2 0 > 772)
      omega)]
  refine ⟨rfl, ?_⟩
  rw [hasCompleted_handshakeSize]

/-- C1 witness: the amended statement at the concrete counterexample buffer. -/
theorem C1_amended_witness :
    (ParseClientHello ⟨c1buf, 0, ""⟩).2 = none ∧
    (ParseClientHello ⟨c1buf, 0, ""⟩).1.handshakeSize =
      (5 + (c1buf.getD 3 0 * 256 + c1buf.getD 4 0)) % 65536 :=
  C1_amended c1buf "" (by decide) (by decide) (by decide) (by decide)

/-! ## C9 — the `uint16` wrap of the expected length -/

/-- On a fresh connection state with a valid record header, `ParseClientHello`
returns no error; the resulting state is the (possibly truncated) state with
`handshakeSize` set to the wrapped expected length. -/
theorem parseClientHello_fresh (buf : List Nat) (fp : String) (h5 : 5 ≤ buf.length)
    (ht : buf.getD 0 0 = 0x16)
    (hv1 : 0x0300 ≤ buf.getD 1 0 * 256 + buf.getD 2 0)
    (hv2 : buf.getD 1 0 * 256 + buf.getD 2 0 ≤ 0x0304) :
    ParseClientHello ⟨buf, 0, fp⟩ =
      ((hasCompletedClientHello
        ⟨buf, (5 + (buf.getD 3 0 * 256 + buf.getD 4 0)) % 65536, fp⟩).2, none) := by
  unfold ParseClientHello
  have hdone : hasCompletedClientHello ⟨buf, 0, fp⟩ = (false, ⟨buf, 0, fp⟩) := by
    unfold hasCompletedClientHello; simp
  rw [hdone]
  simp only [Bool.false_eq_true, if_false]
  rw [if_neg (by show ¬ (buf.length < 5); omega),
    if_neg (by show ¬ (buf.getD 0 0 ≠ 22); simp only [ne_eq, not_not]; exact ht),
    if_neg (by
      show ¬ (buf.getD 1 0 * 256 + buf.getD 2 0 < 768 ∨
        buf.getD 1 0 * 256 + buf.getD 2 0 > 772)
      omega)]

/-- C9 counterexample: with declared record length `0xFFFB = 65531` the
expected length wraps to `0`; the header parse succeeds, but the buffer
(here 100 bytes) is never marked complete and never truncated — contradicting
the claim that it is marked complete at the wrapped length. -/
theorem C9_counterexample :
    (5 + 0xFFFB) % 65536 = 0 ∧
    c9buf.getD 3 0 * 256 + c9buf.getD 4 0 = 65531 ∧
    (ParseClientHello ⟨c9buf, 0, ""⟩).2 = none ∧
    (ParseClientHello ⟨c9buf, 0, ""⟩).1.handshakeSize = 0 ∧
    (hasCompletedClientHello (ParseClientHello ⟨c9buf, 0, ""⟩).1).1 = false ∧
    (ParseClientHello ⟨c9buf, 0, ""⟩).1.buffer.length = 100 := by
  decide

/-- C9 amended: the expected length is `(5 + declared record length) % 2^16`.
For a declared length of exactly `65531` the wrapped value is `0`, so the
buffer is never marked complete; for `65532` and above the buffer is marked
complete once it holds the wrapped number of bytes, and is truncated to that
wrapped length instead of the declared one. -/
theorem C9_amended (buf : List Nat) (fp : String) (h5 : 5 ≤ buf.length)
    (ht : buf.getD 0 0 = 0x16)
    (hv1 : 0x0300 ≤ buf.getD 1 0 * 256 + buf.getD 2 0)
    (hv2 : buf.getD 1 0 * 256 + buf.getD 2 0 ≤ 0x0304)
    (hb3 : buf.getD 3 0 < 256) (hb4 : buf.getD 4 0 < 256)
    (hrl : 65531 ≤ buf.getD 3 0 * 256 + buf.getD 4 0) :
    (ParseClientHello ⟨buf, 0, fp⟩).1.handshakeSize =
      (5 + (buf.getD 3 0 * 256 + buf.getD 4 0)) % 65536 ∧
    (buf.getD 3 0 * 256 + buf.getD 4 0 = 65531 →
      (ParseClientHello ⟨buf, 0, fp⟩).1.handshakeSize = 0 ∧
      (hasCompletedClientHello (ParseClientHello ⟨buf, 0, fp⟩).1).1 = false) ∧
    (65532 ≤ buf.getD 3 0 * 256 + buf.getD 4 0 →
      (5 + (buf.getD 3 0 * 256 + buf.getD 4 0)) % 65536 ≤ buf.length →
      (hasCompletedClientHello (ParseClientHello ⟨buf, 0, fp⟩).1).1 = true ∧
      (ParseClientHello ⟨buf, 0, fp⟩).1.buffer =
        buf.take ((5 + (buf.getD 3 0 * 256 + buf.getD 4 0)) % 65536)) := by
  rw [parseClientHello_fresh buf fp h5 ht hv1 hv2]
  set rl := buf.getD 3 0 * 256 + buf.getD 4 0 with hrldef
  have hrl_ub : rl ≤ 65535 := by omega
  refine ⟨hasCompleted_handshakeSize _, ?_, ?_⟩
  · intro h65531
    have hw : (5 + rl) % 65536 = 0 := by omega
    rw [hw]
    have : hasCompletedClientHello ⟨buf, 0, fp⟩ = (false, ⟨buf, 0, fp⟩) := by
      unfold hasCompletedClientHello; simp
    rw [this]
    exact ⟨rfl, by rw [this]⟩
  · intro h65532 hlen
    have hw : (5 + rl) % 65536 = rl - 65531 := by omega
    rw [hw] at hlen ⊢
    have hwpos : 1 ≤ rl - 65531 := by omega
    generalize hm : rl - 65531 = m at hlen hwpos ⊢
    by_cases hgt : buf.length > m
    · have h1 : hasCompletedClientHello ⟨buf, m, fp⟩ =
          (true, ⟨buf.take m, m, fp⟩) := by
        unfold hasCompletedClientHello
        rw [if_neg (by show ¬ (buf.length = 0 ∨ m = 0); omega),
          if_neg (by show ¬ (buf.length < m); omega),
          if_pos (by show buf.length > m; omega)]
      rw [h1]
      refine ⟨?_, rfl⟩
      have htl : (buf.take m).length = m := by
        rw [List.length_take]; omega
      unfold hasCompletedClientHello
      rw [if_neg (by show ¬ ((buf.take m).length = 0 ∨ m = 0); rw [htl]; omega),
        if_neg (by show ¬ ((buf.take m).length < m); rw [htl]; omega),
        if_neg (by show ¬ ((buf.take m).length > m); rw [htl]; omega)]
    · have hlen_eq : buf.length = m := by omega
      have h1 : hasCompletedClientHello ⟨buf, m, fp⟩ = (true, ⟨buf, m, fp⟩) := by
        unfold hasCompletedClientHello
        rw [if_neg (by show ¬ (buf.length = 0 ∨ m = 0); omega),
          if_neg (by show ¬ (buf.length < m); omega),
          if_neg (by show ¬ (buf.length > m); omega)]
      rw [h1]
      refine ⟨?_, ?_⟩
      · unfold hasCompletedClientHello
        rw [if_neg (by show ¬ (buf.length = 0 ∨ m = 0); omega),
          if_neg (by show ¬ (buf.length < m); omega),
          if_neg (by show ¬ (buf.length > m); omega)]
      · show buf = buf.take m
        rw [← hlen_eq, List.take_length]

/-- C9 witness: the amended statement at a concrete buffer declaring record
length `0xFFFD = 65533` (wrapped expected length `2`). -/
theorem C9_amended_witness :
    (ParseClientHello ⟨[0x16, 0x03, 0x01, 0xFF, 0xFD], 0, ""⟩).1.handshakeSize =
      (5 + ([0x16, 0x03, 0x01, 0xFF, 0xFD].getD 3 0 * 256 +
        [0x16, 0x03, 0x01, 0xFF, 0xFD].getD 4 0)) % 65536 ∧
    ([0x16, 0x03, 0x01, 0xFF, 0xFD].getD 3 0 * 256 +
        [0x16, 0x03, 0x01, 0xFF, 0xFD].getD 4 0 = 65531 →
      (ParseClientHello ⟨[0x16, 0x03, 0x01, 0xFF, 0xFD], 0, ""⟩).1.handshakeSize = 0 ∧
      (hasCompletedClientHello
        (ParseClientHello ⟨[0x16, 0x03, 0x01, 0xFF, 0xFD], 0, ""⟩).1).1 = false) ∧
    (65532 ≤ [0x16, 0x03, 0x01, 0xFF, 0xFD].getD 3 0 * 256 +
        [0x16, 0x03, 0x01, 0xFF, 0xFD].getD 4 0 →
      (5 + ([0x16, 0x03, 0x01, 0xFF, 0xFD].getD 3 0 * 256 +
        [0x16, 0x03, 0x01, 0xFF, 0xFD].getD 4 0)) % 65536 ≤
          [0x16, 0x03, 0x01, 0xFF, 0xFD].length →
      (hasCompletedClientHello
        (ParseClientHello ⟨[0x16, 0x03, 0x01, 0xFF, 0xFD], 0, ""⟩).1).1 = true ∧
      (ParseClientHello ⟨[0x16, 0x03, 0x01, 0xFF, 0xFD], 0, ""⟩).1.buffer =
        [0x16, 0x03, 0x01, 0xFF, 0xFD].take
          ((5 + ([0x16, 0x03, 0x01, 0xFF, 0xFD].getD 3 0 * 256 +
            [0x16, 0x03, 0x01, 0xFF, 0xFD].getD 4 0)) % 65536)) :=
  C9_amended [0x16, 0x03, 0x01, 0xFF, 0xFD] "" (by decide) (by decide) (by decide)
    (by decide) (by decide) (by decide) (by decide)

/-! ## C8 — header validation failure permanently disables fingerprinting -/

theorem hasCompleted_of_zero (c : ConnState) (h : c.handshakeSize = 0) :
    hasCompletedClientHello c = (false, c) := by
  unfold hasCompletedClientHello
  rw [if_pos (Or.inr h)]

/-- A state whose buffer is too short or starts with a bad record header is
left unchanged by `ParseClientHello` (only the error result varies). -/
theorem parseClientHello_stuck (c : ConnState) (hhs : c.handshakeSize = 0)
    (hbad : c.buffer.length < 5 ∨ recordHeaderBad c.buffer) :
    (ParseClientHello c).1 = c := by
  unfold ParseClientHello
  rw [hasCompleted_of_zero c hhs]
  simp only [Bool.false_eq_true, if_false]
  by_cases hlen : c.buffer.length < 5
  · rw [if_pos hlen]
  · rw [if_neg hlen]
    obtain ⟨-, hb⟩ := hbad.resolve_left hlen
    by_cases htype : c.buffer.getD 0 0 ≠ 0x16
    · rw [if_pos htype]
    · rw [if_neg htype,
        if_pos (by
          show c.buffer.getD 1 0 * 256 + c.buffer.getD 2 0 < 768 ∨
            c.buffer.getD 1 0 * 256 + c.buffer.getD 2 0 > 772
          rcases hb with hb | hb | hb
          · exact absurd hb htype
          · exact Or.inl hb
          · exact Or.inr hb)]

theorem recordHeaderBad_persists {l m : List Nat} (hpre : l <+: m) (h5 : 5 ≤ l.length)
    (hbad : recordHeaderBad m) : recordHeaderBad l := by
  obtain ⟨-, hb⟩ := hbad
  refine ⟨h5, ?_⟩
  rw [show l.getD 0 0 = m.getD 0 0 from (getD_agree hpre (by omega)).symm,
    show l.getD 1 0 = m.getD 1 0 from (getD_agree hpre (by omega)).symm,
    show l.getD 2 0 = m.getD 2 0 from (getD_agree hpre (by omega)).symm]
  exact hb

theorem C8_aux (stream : List Nat) (hbad : recordHeaderBad stream) :
    ∀ (chunks : List (List Nat)) (s : ConnState),
      s.fingerprint = "" → s.handshakeSize = 0 →
      (s.buffer ++ chunks.flatten) <+: stream →
      ∃ s', readConn s chunks = some s' ∧ s'.fingerprint = "" ∧ s'.handshakeSize = 0 := by
  intro chunks
  induction chunks with
  | nil =>
    intro s hfp hhs _
    exact ⟨s, rfl, hfp, hhs⟩
  | cons ch rest ih =>
    intro s hfp hhs hpre
    have hstep : readConn s (ch :: rest) = (readStep s ch).bind fun s' => readConn s' rest := by
      rfl
    by_cases hch : ch = []
    · subst hch
      have h1 : readStep s [] = some s := by
        unfold readStep
        rw [if_neg (by simp)]
      rw [hstep, h1]
      exact ih s hfp hhs (by simpa using hpre)
    · have h1 : readStep s ch = some (ParseClientHello { s with buffer := s.buffer ++ ch }).1 := by
        unfold readStep
        rw [if_pos ⟨hfp, hch⟩, hasCompleted_of_zero s hhs]
        rfl
      have hpre2 : (s.buffer ++ ch) ++ rest.flatten <+: stream := by
        simpa [List.append_assoc] using hpre
      have hpre1 : (s.buffer ++ ch) <+: stream :=
        (List.prefix_append _ _).trans hpre2
      have hbadc : (s.buffer ++ ch).length < 5 ∨ recordHeaderBad (s.buffer ++ ch) := by
        by_cases hl : (s.buffer ++ ch).length < 5
        · exact Or.inl hl
        · exact Or.inr (recordHeaderBad_persists hpre1 (by omega) hbad)
      have h2 : (ParseClientHello { s with buffer := s.buffer ++ ch }).1 =
          { s with buffer := s.buffer ++ ch } :=
        parseClientHello_stuck _ hhs hbadc
      rw [hstep, h1, h2]
      exact ih { s with buffer := s.buffer ++ ch } hfp hhs hpre2

/-- C8: when the first buffered bytes fail the record-header validation, no
read sequence ever produces a fingerprint: reading any chunking of such a
stream succeeds (never reaches the parser) and leaves `fingerprint` unset and
`handshakeSize` zero. -/
theorem C8_bad_header_disables (chunks : List (List Nat))
    (hbad : recordHeaderBad chunks.flatten) :
    ∃ s', readConn initConn chunks = some s' ∧
      s'.fingerprint = "" ∧ s'.handshakeSize = 0 :=
  C8_aux chunks.flatten hbad chunks initConn rfl rfl (by simp [initConn])

/-- C8 witness: a stream whose first byte `0x17` is not a handshake record,
split across two reads. -/
theorem C8_witness :
    ∃ s', readConn initConn [[0x17], [0x03, 0x01, 0x00, 0x05]] = some s' ∧
      s'.fingerprint = "" ∧ s'.handshakeSize = 0 :=
  C8_bad_header_disables [[0x17], [0x03, 0x01, 0x00, 0x05]] (by decide)

/-! ## C10 — a parse failure stores the error's message text -/

theorem exceptBind_error_elim {ε α β : Type} {x : Except ε α} {f : α → Except ε β}
    {err : ε} (h : (x >>= f) = .error err) :
    x = .error err ∨ ∃ a, x = .ok a ∧ f a = .error err := by
  cases x with
  | ok a => exact Or.inr ⟨a, rfl, h⟩
  | error err' =>
    left
    have hh : (Except.error err' : Except ε β) = Except.error err := h
    have h1 : err' = err := by
      injection hh
    rw [h1]

theorem exceptBind_ok {ε α β : Type} (a : α) (f : α → Except ε β) :
    (Except.ok a >>= f) = f a := rfl

theorem exceptBind_error {ε α β : Type} (err : ε) (f : α → Except ε β) :
    ((Except.error err : Except ε α) >>= f) = Except.error err := rfl

theorem exceptMap_ok {ε α β : Type} (a : α) (f : α → β) :
    (Except.ok a : Except ε α).map f = Except.ok (f a) := rfl

theorem exceptMap_error {ε α β : Type} (err : ε) (f : α → β) :
    (Except.error err : Except ε α).map f = Except.error err := rfl

theorem cipherScan_no_msg :
    ∀ (cnt : Nat) (bytes acc : List Nat) (e : String),
      cipherScan bytes cnt acc ≠ .error (.msg e) := by
  intro cnt
  induction cnt using Nat.strong_induction_on with
  | _ cnt ih =>
    intro bytes acc e
    rcases cnt with - | cnt1
    · simp [cipherScan]
    · rcases bytes with - | ⟨a, bytes⟩
      · rcases cnt1 with - | cnt2 <;> simp [cipherScan]
      · rcases bytes with - | ⟨b, rest⟩
        · rcases cnt1 with - | cnt2 <;> simp [cipherScan]
        · rcases cnt1 with - | cnt2
          · simp [cipherScan]
          · simp only [cipherScan]
            exact ih cnt2 (by omega) rest _ e

theorem sigScan_no_msg :
    ∀ (cnt : Nat) (bytes sigs : List Nat) (c : Nat) (e : String),
      sigScan bytes cnt sigs c ≠ .error (.msg e) := by
  intro cnt
  induction cnt using Nat.strong_induction_on with
  | _ cnt ih =>
    intro bytes sigs c e
    rcases cnt with - | cnt1
    · simp [sigScan]
    · rcases bytes with - | ⟨a, bytes⟩
      · rcases cnt1 with - | cnt2 <;> simp [sigScan]
      · rcases bytes with - | ⟨b, rest⟩
        · rcases cnt1 with - | cnt2 <;> simp [sigScan]
        · rcases cnt1 with - | cnt2
          · simp [sigScan]
            split_ifs <;> simp [sigScan]
          · simp only [sigScan]
            split_ifs
            · exact ih cnt2 (by omega) rest _ _ e
            · exact ih cnt2 (by omega) rest _ _ e

theorem alpnStep_msg_nonempty (extType extLen : Nat) (data : List Nat) (acc : ScanAcc)
    (e : String) (h : alpnStep extType extLen data acc = .error (.msg e)) : e ≠ "" := by
  unfold alpnStep at h
  try dsimp only at h
  split_ifs at h <;>
    first
      | exact Except.noConfusion h
      | (simp only [Except.error.injEq, ParseErr.msg.injEq] at h; subst h; decide)

theorem sigStep_msg_nonempty (extType extLen : Nat) (data tail : List Nat) (acc : ScanAcc)
    (e : String) (h : sigStep extType extLen data tail acc = .error (.msg e)) : e ≠ "" := by
  unfold sigStep at h
  try dsimp only at h
  split_ifs at h <;>
    first
      | exact Except.noConfusion h
      | (simp only [Except.error.injEq, ParseErr.msg.injEq] at h; subst h; decide)
      | (rcases exceptBind_error_elim h with h1 | ⟨⟨a1, a2⟩, -, h2⟩ <;>
          first
            | exact absurd h1 (sigScan_no_msg _ _ _ _ e)
            | simp at h2)

theorem svStep_msg_nonempty (extType extLen : Nat) (data : List Nat) (acc : ScanAcc)
    (e : String) (h : svStep extType extLen data acc = .error (.msg e)) : e ≠ "" := by
  unfold svStep at h
  try dsimp only at h
  split_ifs at h <;>
    first
      | exact Except.noConfusion h
      | (simp only [Except.error.injEq, ParseErr.msg.injEq] at h; subst h; decide)

theorem processExt_msg_nonempty (extType extLen : Nat) (data tail : List Nat)
    (acc : ScanAcc) (e : String)
    (h : processExt extType extLen data tail acc = .error (.msg e)) : e ≠ "" := by
  unfold processExt at h
  rcases exceptBind_error_elim h with h1 | ⟨a1, -, h2⟩
  · exact alpnStep_msg_nonempty _ _ _ _ _ h1
  · rcases exceptBind_error_elim h2 with h3 | ⟨a2, -, h4⟩
    · exact sigStep_msg_nonempty _ _ _ _ _ _ h3
    · exact svStep_msg_nonempty _ _ _ _ _ h4

theorem scanExtGo_msg_nonempty :
    ∀ (fuel : Nat) (bytes : List Nat) (blockRem : Nat) (acc : ScanAcc) (e : String),
      scanExtGo fuel bytes blockRem acc = .error (.msg e) → e ≠ "" := by
  intro fuel
  induction fuel with
  | zero =>
    intro bytes blockRem acc e h
    exact absurd h (by simp [scanExtGo])
  | succ fuel ih =>
    intro bytes blockRem acc e h
    unfold scanExtGo at h
    try dsimp only at h
    split_ifs at h <;>
      first
        | exact Except.noConfusion h
        | exact ih _ _ _ e h
        | (rcases exceptBind_error_elim h with h1 | ⟨a, -, h2⟩ <;>
            first
              | exact processExt_msg_nonempty _ _ _ _ _ _ h1
              | exact ih _ _ _ e h2)

theorem parseCiphers_msg_nonempty (r1 : List Nat) (e : String)
    (h : parseCiphers r1 = .error (.msg e)) : e ≠ "" := by
  unfold parseCiphers at h
  try dsimp only at h
  split_ifs at h <;>
    first
      | (simp only [Except.error.injEq, ParseErr.msg.injEq] at h; subst h; decide)
      | (rcases exceptBind_error_elim h with h1 | ⟨a, -, h2⟩ <;>
          first
            | exact absurd h1 (cipherScan_no_msg _ _ _ e)
            | exact Except.noConfusion h2)

theorem parseExtensionsBlock_msg_nonempty (r3 : List Nat) (e : String)
    (h : parseExtensionsBlock r3 = .error (.msg e)) : e ≠ "" := by
  unfold parseExtensionsBlock at h
  try dsimp only at h
  split_ifs at h <;>
    first
      | (simp only [Except.error.injEq, ParseErr.msg.injEq] at h; subst h; decide)
      | (unfold scanExtensions at h
         exact scanExtGo_msg_nonempty _ _ _ _ _ h)

theorem string_append_ne_empty (a b : String) (ha : a.data ≠ []) : a ++ b ≠ "" := by
  intro hcontr
  have hd := congrArg String.data hcontr
  rw [String.data_append] at hd
  exact ha (List.append_eq_nil.mp hd).1

theorem string_append_data_ne (a b : String) (ha : a.data ≠ []) : (a ++ b).data ≠ [] := by
  rw [String.data_append]
  intro hc
  exact ha (List.append_eq_nil.mp hc).1

/-- Every `error` message `ParseJA4` can return is a non-empty string. -/
theorem parseJA4_msg_nonempty (payload : List Nat) (protocol : Nat) (e : String)
    (h : ParseJA4 payload protocol = .error (.msg e)) : e ≠ "" := by
  unfold ParseJA4 at h
  have hpf : parseFields payload = .error (.msg e) := by
    rcases hp : parseFields payload with verr | vok
    all_goals rw [hp] at h
    · have hh : (Except.error verr : Except ParseErr String) = .error (.msg e) := h
      injection hh with h1
      rw [h1]
    · exact Except.noConfusion
        (show (Except.ok (buildJA4 protocol vok.1 vok.2.1 vok.2.2) :
          Except ParseErr String) = .error (.msg e) from h)
  clear h
  unfold parseFields at hpf
  try dsimp only at hpf
  split_ifs at hpf <;>
    first
      | exact Except.noConfusion hpf
      | (simp only [Except.error.injEq, ParseErr.msg.injEq] at hpf; subst hpf; decide)
      | (simp only [Except.error.injEq, ParseErr.msg.injEq] at hpf
         rw [← hpf]
         apply string_append_ne_empty
         apply string_append_data_ne
         apply string_append_data_ne
         decide)
      | skip
  rcases exceptBind_error_elim hpf with h1 | ⟨a, -, h2⟩
  · exact parseCiphers_msg_nonempty _ _ h1
  · rcases exceptBind_error_elim h2 with h3 | ⟨a2, -, h4⟩
    · exact parseExtensionsBlock_msg_nonempty _ _ h3
    · exact Except.noConfusion h4

/-- C10: when the buffered ClientHello is complete but `ParseJA4` fails, the
connection's fingerprint is set to the parse error's message text — a
non-empty string — rather than left absent, and that same value is what
`ConnContextFingerprint` hands to the per-request context. -/
theorem C10_parse_error_stored (s : ConnState) (chunk : List Nat) (e : String)
    (hfp : s.fingerprint = "") (hch : chunk ≠ [])
    (hdone : (hasCompletedClientHello s).1 = true)
    (herr : ParseJA4 (hasCompletedClientHello s).2.buffer 116 = .error (.msg e)) :
    readStep s chunk = some { (hasCompletedClientHello s).2 with fingerprint := e } ∧
    e ≠ "" ∧
    ConnContextFingerprint { (hasCompletedClientHello s).2 with fingerprint := e } = e := by
  refine ⟨?_, parseJA4_msg_nonempty _ _ _ herr, rfl⟩
  unfold readStep
  rw [if_pos ⟨hfp, hch⟩]
  rcases hcpl : hasCompletedClientHello s with ⟨done, c1⟩
  rw [hcpl] at hdone herr
  simp only at hdone herr ⊢
  rw [hdone]
  simp only [if_true]
  rw [herr]

/-- C10 witness: a completed 6-byte buffer, too short for `ParseJA4`, whose
parse error message `"payload too short"` becomes the stored fingerprint. -/
theorem C10_witness :
    readStep ⟨[0x16, 0x03, 0x01, 0x00, 0x01, 0x02], 6, ""⟩ [0] =
      some { (hasCompletedClientHello ⟨[0x16, 0x03, 0x01, 0x00, 0x01, 0x02], 6, ""⟩).2 with
        fingerprint := "payload too short" } ∧
    "payload too short" ≠ "" ∧
    ConnContextFingerprint
      { (hasCompletedClientHello ⟨[0x16, 0x03, 0x01, 0x00, 0x01, 0x02], 6, ""⟩).2 with
        fingerprint := "payload too short" } = "payload too short" :=
  C10_parse_error_stored ⟨[0x16, 0x03, 0x01, 0x00, 0x01, 0x02], 6, ""⟩ [0]
    "payload too short" rfl (by decide) rfl rfl

/-! ## C3 — the version-code mapping and its source -/

/-- C3 counterexample: a successfully parsed ClientHello whose legacy client
version is `0x0002` renders the version code `"s2"` (characters 1–2 of the
output), while the claim's mapping renders every code outside its table —
`0x0002` included — as `"00"`. -/
theorem C3_counterexample :
    ParseJA4 c3bytes 116 =
      .ok ("ts2i010000_" ++ ComputeTruncatedSHA256 "1301" ++ "_000000000000") ∧
    (("ts2i010000_" ++ ComputeTruncatedSHA256 "1301" ++
      "_000000000000").data.drop 1).take 2 = ['s', '2'] ∧
    MapTLSVersion 0x0002 ≠ specMapTLSVersionClaim 0x0002 ∧
    specMapTLSVersionClaim 0x0002 = "00" := by
  refine ⟨rfl, rfl, by decide, rfl⟩

theorem MapTLSVersion_data_length (v : Nat) : (MapTLSVersion v).data.length = 2 := by
  unfold MapTLSVersion
  split <;> rfl

/-- C3 amended: for every successfully parsed ClientHello the 2-character
version code (characters 1–2 of the JA4 string) is `MapTLSVersion` applied to
the supported-versions extension's highest non-GREASE entry when that
extension is present, else to the legacy client version; and `MapTLSVersion`
is exactly the claim's table extended with `0x0002 → "s2"`. -/
theorem C3_amended (payload : List Nat) (protocol : Nat) (v : Nat) (cs : List Nat)
    (a : ScanAcc) (hp : parseFields payload = .ok (v, cs, a)) :
    (∀ s, ParseJA4 payload protocol = .ok s →
      (s.data.drop 1).take 2 =
        (MapTLSVersion (if a.svFound then a.highest else v)).data) ∧
    (∀ code, MapTLSVersion code =
      if code = 0x0002 then "s2" else specMapTLSVersionClaim code) := by
  constructor
  · intro s hs
    unfold ParseJA4 at hs
    rw [hp, exceptMap_ok] at hs
    injection hs with hs1
    subst hs1
    unfold buildJA4
    dsimp only
    simp only [String.data_append, List.append_assoc, List.singleton_append, List.cons_append,
      List.nil_append]
    by_cases hsv : a.svFound
    · simp only [hsv, if_true]
      rw [List.drop_one, List.tail_cons,
        List.take_left' (MapTLSVersion_data_length _)]
    · simp only [hsv, Bool.false_eq_true, if_false]
      rw [List.drop_one, List.tail_cons,
        List.take_left' (MapTLSVersion_data_length _)]
  · intro code
    unfold MapTLSVersion
    split <;> try rfl
    rename_i h1 h2 h3 h4 h5 h6 h7 h8 h9
    rw [if_neg h6]
    unfold specMapTLSVersionClaim
    split <;> simp_all

/-- C3 witness: the amended statement at the counterexample payload. -/
theorem C3_amended_witness :
    (∀ s, ParseJA4 c3bytes 116 = .ok s →
      (s.data.drop 1).take 2 =
        (MapTLSVersion
          (if (⟨[], 0, false, [48, 48], [], 0, false, 0⟩ : ScanAcc).svFound
            then (⟨[], 0, false, [48, 48], [], 0, false, 0⟩ : ScanAcc).highest
            else 2)).data) ∧
    (∀ code, MapTLSVersion code =
      if code = 0x0002 then "s2" else specMapTLSVersionClaim code) :=
  C3_amended c3bytes 116 2 [0x1301] ⟨[], 0, false, [48, 48], [], 0, false, 0⟩ rfl

/-- C7 witness: the store semantics at concrete values. -/
theorem C7_witness :
    (((storeSet [("10.0.0.1:4", "old", 0)] "10.0.0.1:4" "fp1" 2).find?
        (fun e => e.1 = "10.0.0.1:4") = some ("10.0.0.1:4", "fp1", 2)) ∧
    (storeGet 10 (storeSet [("10.0.0.1:4", "old", 0)] "10.0.0.1:4" "fp1" 2)
      "10.0.0.1:4" 5 = if (5 : Int) - 2 > 10 then none else some "fp1") ∧
    ("10.0.0.2:7" ≠ "10.0.0.1:4" →
      storeGet 10 (storeSet [("10.0.0.1:4", "old", 0)] "10.0.0.1:4" "fp1" 2)
        "10.0.0.2:7" 5 = storeGet 10 [("10.0.0.1:4", "old", 0)] "10.0.0.2:7" 5) ∧
    (∀ fp' : String, storeGet 10 [("10.0.0.1:4", "old", 0)] "10.0.0.1:4" 2 = some fp' ↔
      ∃ ts, [("10.0.0.1:4", "old", 0)].find? (fun e => e.1 = "10.0.0.1:4") =
        some ("10.0.0.1:4", fp', ts) ∧ (2 : Int) - ts ≤ 10) ∧
    (∀ e : String × String × Int, e ∈ removeExpired 10 [("10.0.0.1:4", "old", 0)] 2 ↔
      e ∈ [("10.0.0.1:4", "old", 0)] ∧ (2 : Int) - e.2.2 ≤ 10)) :=
  C7_store_semantics 10 [("10.0.0.1:4", "old", 0)] "10.0.0.1:4" "10.0.0.2:7" "fp1" 2 5


/-! ## C4 — Part C's hash input -/

theorem exceptBind_ok_elim {ε α β : Type} {x : Except ε α} {f : α → Except ε β} {b : β}
    (h : (x >>= f) = .ok b) : ∃ a, x = .ok a ∧ f a = .ok b := by
  cases x with
  | ok a => exact ⟨a, rfl, h⟩
  | error e => exact Except.noConfusion (show (Except.error e : Except ε β) = .ok b from h)

theorem shaCompress_length (hs block : List Nat) : (shaCompress hs block).length = 8 := by
  unfold shaCompress
  dsimp only
  rcases hfold : (shaK.zip (shaExtend (shaWords block) 48)).foldl shaRound
      (hs.getD 0 0, hs.getD 1 0, hs.getD 2 0, hs.getD 3 0,
       hs.getD 4 0, hs.getD 5 0, hs.getD 6 0, hs.getD 7 0) with
    ⟨a, b, c, d, e, f, g, h⟩
  rfl

theorem sha256_length (msg : List Nat) : (sha256 msg).length = 32 := by
  have h8 : ∀ (blocks : List (List Nat)) (hs : List Nat), hs.length = 8 →
      (blocks.foldl shaCompress hs).length = 8 := by
    intro blocks
    induction blocks with
    | nil => intro hs h; simpa using h
    | cons b bs ih =>
      intro hs h
      rw [List.foldl_cons]
      exact ih _ (shaCompress_length hs b)
  have h4 : ∀ (hs : List Nat),
      (hs.flatMap fun h =>
        [h / 16777216 % 256, h / 65536 % 256, h / 256 % 256, h % 256]).length =
        4 * hs.length := by
    intro hs
    induction hs with
    | nil => rfl
    | cons x xs ih =>
      rw [List.flatMap_cons, List.length_append, ih, List.length_cons]
      simp
      omega
  show (((shaBlocks (shaPad msg)).foldl shaCompress shaH0).flatMap
    (fun h => [h / 16777216 % 256, h / 65536 % 256, h / 256 % 256, h % 256])).length = 32
  rw [h4, h8 _ shaH0 rfl]

theorem bytesToHex_data_length (l : List Nat) : (bytesToHex l).data.length = 2 * l.length := by
  induction l with
  | nil => rfl
  | cons x xs ih =>
    have hstep : (bytesToHex (x :: xs)).data =
        hexDigit (x / 16 % 16) :: hexDigit (x % 16) :: (bytesToHex xs).data := rfl
    rw [hstep, List.length_cons, List.length_cons, ih, List.length_cons]
    omega

theorem truncHash_data_length (x : String) : (ComputeTruncatedSHA256 x).data.length = 12 := by
  unfold ComputeTruncatedSHA256
  rw [bytesToHex_data_length, List.length_take, sha256_length]
  decide

theorem alpnStep_ok_fields (extType extLen : Nat) (data : List Nat) (acc acc' : ScanAcc)
    (h : alpnStep extType extLen data acc = .ok acc') :
    acc'.extensions = acc.extensions ∧ acc'.sigAlgoCount = acc.sigAlgoCount := by
  unfold alpnStep at h
  try dsimp only at h
  split_ifs at h <;>
    first
      | exact Except.noConfusion h
      | (injection h with h1; subst h1; exact ⟨rfl, rfl⟩)

theorem sigStep_ok_fields (extType extLen : Nat) (data tail : List Nat) (acc acc' : ScanAcc)
    (h : sigStep extType extLen data tail acc = .ok acc') :
    acc'.extensions = acc.extensions ∧ (extType ≠ 0x000d → acc' = acc) := by
  unfold sigStep at h
  try dsimp only at h
  split_ifs at h with h1
  · rcases exceptBind_ok_elim h with ⟨a, -, h2⟩
    injection h2 with h3
    subst h3
    exact ⟨rfl, fun hne => absurd h1 hne⟩
  · injection h with h1'
    subst h1'
    exact ⟨rfl, fun _ => rfl⟩

theorem svStep_ok_fields (extType extLen : Nat) (data : List Nat) (acc acc' : ScanAcc)
    (h : svStep extType extLen data acc = .ok acc') :
    acc'.extensions = acc.extensions ∧ acc'.sigAlgoCount = acc.sigAlgoCount := by
  unfold svStep at h
  try dsimp only at h
  split_ifs at h <;>
    first
      | exact Except.noConfusion h
      | (injection h with h1; subst h1; exact ⟨rfl, rfl⟩)

theorem preExt_sigAlgoCount (extType : Nat) (acc : ScanAcc) :
    (preExt extType acc).sigAlgoCount = acc.sigAlgoCount := rfl

theorem preExt_mem_mono (extType x : Nat) (acc : ScanAcc) (hx : x ∈ acc.extensions) :
    x ∈ (preExt extType acc).extensions := by
  unfold preExt
  dsimp only
  split_ifs <;> simp [hx]

theorem preExt_mem_self (extType : Nat) (acc : ScanAcc)
    (h0 : extType ≠ 0x0000) (h16 : extType ≠ 0x0010) :
    extType ∈ (preExt extType acc).extensions := by
  unfold preExt
  dsimp only
  rw [if_pos ⟨h0, h16⟩]
  simp

theorem processExt_sig_inv (extType extLen : Nat) (data tail : List Nat)
    (acc acc' : ScanAcc) (h : processExt extType extLen data tail acc = .ok acc')
    (hI : 0 < acc.sigAlgoCount → 0x000d ∈ acc.extensions) :
    0 < acc'.sigAlgoCount → 0x000d ∈ acc'.extensions := by
  unfold processExt at h
  rcases exceptBind_ok_elim h with ⟨a1, ha, h2⟩
  rcases exceptBind_ok_elim h2 with ⟨a2, hsg, h3⟩
  obtain ⟨he1, hc1⟩ := alpnStep_ok_fields _ _ _ _ _ ha
  obtain ⟨he2, hid⟩ := sigStep_ok_fields _ _ _ _ _ _ hsg
  obtain ⟨he3, hc3⟩ := svStep_ok_fields _ _ _ _ _ h3
  by_cases h13 : extType = 0x000d
  · -- the signature_algorithms type code was appended before the scan
    subst h13
    intro hpos
    have hmem : (0x000d : Nat) ∈ (preExt 0x000d acc).extensions :=
      preExt_mem_self _ _ (by decide) (by decide)
    rw [he3, he2, he1]
    exact hmem
  · have ha2 : a2 = a1 := hid h13
    subst ha2
    intro hc
    rw [he3, he1]
    rw [hc3, hc1, preExt_sigAlgoCount] at hc
    exact preExt_mem_mono _ _ _ (hI hc)

theorem scanExtGo_sig_inv :
    ∀ (fuel : Nat) (bytes : List Nat) (blockRem : Nat) (acc acc' : ScanAcc),
      scanExtGo fuel bytes blockRem acc = .ok acc' →
      (0 < acc.sigAlgoCount → 0x000d ∈ acc.extensions) →
      0 < acc'.sigAlgoCount → 0x000d ∈ acc'.extensions := by
  intro fuel
  induction fuel with
  | zero =>
    intro bytes blockRem acc acc' h hI
    injection h with h1
    subst h1
    exact hI
  | succ fuel ih =>
    intro bytes blockRem acc acc' h hI
    unfold scanExtGo at h
    try dsimp only at h
    split_ifs at h <;>
      first
        | (injection h with h1; subst h1; exact hI)
        | exact ih _ _ _ _ h hI
        | (rcases exceptBind_ok_elim h with ⟨a, hp, h2⟩
           exact ih _ _ _ _ h2 (processExt_sig_inv _ _ _ _ _ _ hp hI))

theorem parseFields_sig_inv (payload : List Nat) (v : Nat) (cs : List Nat) (a : ScanAcc)
    (hp : parseFields payload = .ok (v, cs, a)) :
    0 < a.sigAlgoCount → 0x000d ∈ a.extensions := by
  unfold parseFields at hp
  try dsimp only at hp
  split_ifs at hp <;> try exact Except.noConfusion hp
  rcases exceptBind_ok_elim hp with ⟨cr, -, h2⟩
  rcases exceptBind_ok_elim h2 with ⟨acc0, hx, h3⟩
  injection h3 with h4
  have ha : acc0 = a := congrArg (fun t => t.2.2) h4
  subst ha
  unfold parseExtensionsBlock at hx
  try dsimp only at hx
  split_ifs at hx <;> try exact Except.noConfusion hx
  unfold scanExtensions at hx
  exact scanExtGo_sig_inv _ _ _ _ _ hx (by intro hc; exact absurd hc (by decide))

/-- C4 counterexample: the ClientHello whose wire signature_algorithms are
`[0x0A0A (GREASE), 0x0403]` hashes the GREASE-filtered input `"000d_0403"`
into Part C, not the claim's all-codes input `"000d_0a0a,0403"`. -/
theorem C4_counterexample :
    ParseJA4 c4bytes 116 =
      .ok ("t12i010100_" ++ ComputeTruncatedSHA256 "1301" ++ "_" ++
        ComputeTruncatedSHA256 "000d_0403") ∧
    ComputeTruncatedSHA256 "000d_0403" ≠ ComputeTruncatedSHA256 "000d_0a0a,0403" := by
  refine ⟨rfl, by decide⟩

/-- C4 amended: Part C (the last 12 characters of the JA4 string) hashes the
sorted GREASE-filtered extension type codes excluding SNI and ALPN; whenever
any non-GREASE signature-algorithm values exist, an underscore and the
GREASE-filtered signature-algorithm codes in original wire order are appended
to the hash input (GREASE values are removed from signature_algorithms too).
With no qualifying extensions, Part C is the literal `"000000000000"` — and
then no signature-algorithm values can exist, since a parsed
signature_algorithms extension leaves its own type code `0x000d` in the
extension list. -/
theorem C4_amended (payload : List Nat) (protocol v : Nat) (cs : List Nat)
    (a : ScanAcc) (s : String)
    (hp : parseFields payload = .ok (v, cs, a))
    (hs : ParseJA4 payload protocol = .ok s) :
    lastChars 12 s =
      (if a.extensions.length = 0 then "000000000000"
       else ComputeTruncatedSHA256 (BuildHexList (sortNat a.extensions) ++
         (if a.sigAlgoCount > 0 then "_" ++ BuildHexList a.sigAlgs else ""))).data ∧
    (0 < a.sigAlgoCount → 0x000d ∈ a.extensions) := by
  refine ⟨?_, parseFields_sig_inv payload v cs a hp⟩
  unfold ParseJA4 at hs
  rw [hp, exceptMap_ok] at hs
  injection hs with hs1
  subst hs1
  unfold buildJA4 lastChars
  dsimp only
  rw [String.data_append, List.length_append]
  have hc : (if a.extensions.length = 0 then "000000000000"
      else ComputeTruncatedSHA256 (BuildHexList (sortNat a.extensions) ++
        (if a.sigAlgoCount > 0 then "_" ++ BuildHexList a.sigAlgs else ""))).data.length =
      12 := by
    split_ifs <;> first | decide | exact truncHash_data_length _
  rw [hc, Nat.add_sub_cancel, List.drop_left]


/-- C4 witness: the amended statement at the counterexample payload. -/
theorem C4_amended_witness :
    lastChars 12 ("t12i010100_" ++ ComputeTruncatedSHA256 "1301" ++ "_" ++
        ComputeTruncatedSHA256 "000d_0403") =
      (if (⟨[0x000d], 1, false, [48, 48], [0x0403], 1, false, 0⟩ : ScanAcc).extensions.length = 0
       then "000000000000"
       else ComputeTruncatedSHA256
         (BuildHexList (sortNat
            (⟨[0x000d], 1, false, [48, 48], [0x0403], 1, false, 0⟩ : ScanAcc).extensions) ++
          (if (⟨[0x000d], 1, false, [48, 48], [0x0403], 1, false, 0⟩ : ScanAcc).sigAlgoCount > 0
           then "_" ++ BuildHexList
             (⟨[0x000d], 1, false, [48, 48], [0x0403], 1, false, 0⟩ : ScanAcc).sigAlgs
           else ""))).data ∧
    (0 < (⟨[0x000d], 1, false, [48, 48], [0x0403], 1, false, 0⟩ : ScanAcc).sigAlgoCount →
      0x000d ∈ (⟨[0x000d], 1, false, [48, 48], [0x0403], 1, false, 0⟩ : ScanAcc).extensions) :=
  C4_amended c4bytes 116 771 [0x1301]
    ⟨[0x000d], 1, false, [48, 48], [0x0403], 1, false, 0⟩
    ("t12i010100_" ++ ComputeTruncatedSHA256 "1301" ++ "_" ++
      ComputeTruncatedSHA256 "000d_0403") rfl rfl


/-! ## Roundtrip: parsing a serialized ClientHello -/

theorem u16be_decode (n : Nat) (h : n < 65536) : n / 256 % 256 * 256 + n % 256 = n := by
  omega

theorem u24be_decode (n : Nat) (h : n < 16777216) :
    n / 65536 % 256 * 65536 + n / 256 % 256 * 256 + n % 256 = n := by
  omega

theorem flatMap_u16be_length (l : List Nat) : (l.flatMap u16be).length = 2 * l.length := by
  induction l with
  | nil => rfl
  | cons x xs ih =>
    rw [List.flatMap_cons, List.length_append, ih, List.length_cons]
    show 2 + 2 * xs.length = 2 * (xs.length + 1)
    omega

theorem helloBody_length (h : HelloSpec) (block : List Nat) :
    (helloBody h block).length =
      40 + h.sessionId.length + 2 * h.ciphers.length + h.comps.length + block.length := by
  simp only [helloBody, List.length_append, flatMap_u16be_length, u16be,
    List.length_cons, List.length_nil, List.length_replicate]
  omega

theorem scanExtGo_fuel_irrel :
    ∀ (fuel fuel' : Nat) (bytes : List Nat) (blockRem : Nat) (acc : ScanAcc),
      bytes.length ≤ fuel → bytes.length ≤ fuel' →
      scanExtGo fuel bytes blockRem acc = scanExtGo fuel' bytes blockRem acc := by
  intro fuel
  induction fuel with
  | zero =>
    intro fuel' bytes blockRem acc hf hf'
    have hnil : bytes = [] := List.length_eq_zero.mp (by omega)
    subst hnil
    cases fuel' with
    | zero => rfl
    | succ n =>
      show Except.ok acc = scanExtGo (n + 1) [] blockRem acc
      unfold scanExtGo
      rw [if_neg (by simp)]
  | succ fuel ih =>
    intro fuel' bytes blockRem acc hf hf'
    cases fuel' with
    | zero =>
      have hnil : bytes = [] := List.length_eq_zero.mp (by omega)
      subst hnil
      show scanExtGo (fuel + 1) [] blockRem acc = Except.ok acc
      unfold scanExtGo
      rw [if_neg (by simp)]
    | succ n =>
      show scanExtGo (fuel + 1) bytes blockRem acc = scanExtGo (n + 1) bytes blockRem acc
      unfold scanExtGo
      by_cases hg : 4 ≤ blockRem ∧ 4 ≤ bytes.length
      · rw [if_pos hg, if_pos hg]
        dsimp only
        have hlen : (List.drop (bytes.getD 2 0 * 256 + bytes.getD 3 0)
            (List.drop 4 bytes)).length ≤ fuel := by
          simp only [List.length_drop]
          omega
        have hlen' : (List.drop (bytes.getD 2 0 * 256 + bytes.getD 3 0)
            (List.drop 4 bytes)).length ≤ n := by
          simp only [List.length_drop]
          omega
        by_cases hbrk : bytes.getD 2 0 * 256 + bytes.getD 3 0 > blockRem - 4 ∨
            bytes.getD 2 0 * 256 + bytes.getD 3 0 > (List.drop 4 bytes).length
        · rw [if_pos hbrk, if_pos hbrk]
        · rw [if_neg hbrk, if_neg hbrk]
          by_cases hgr : IsGreaseValue (bytes.getD 0 0 * 256 + bytes.getD 1 0) = true
          · rw [if_pos hgr, if_pos hgr]
            exact ih n _ _ acc hlen hlen'
          · rw [if_neg hgr, if_neg hgr]
            rcases hpe : processExt (bytes.getD 0 0 * 256 + bytes.getD 1 0)
                (bytes.getD 2 0 * 256 + bytes.getD 3 0)
                (List.take (bytes.getD 2 0 * 256 + bytes.getD 3 0) (List.drop 4 bytes))
                (List.drop 4 bytes) acc with a | err
            · rw [exceptBind_error, exceptBind_error]
            · rw [exceptBind_ok, exceptBind_ok]
              exact ih n _ _ err hlen hlen'
      · rw [if_neg hg, if_neg hg]

theorem cipherScan_serialized :
    ∀ (l : List Nat) (tail acc : List Nat), (∀ c ∈ l, c < 65536) →
      cipherScan (l.flatMap u16be ++ tail) (2 * l.length) acc =
        .ok (acc ++ l.filter fun c => ¬ IsGreaseValue c) := by
  intro l
  induction l with
  | nil =>
    intro tail acc h
    simp [cipherScan]
  | cons c cs ih =>
    intro tail acc h
    have hc : c < 65536 := h c (by simp)
    have hshape : (c :: cs).flatMap u16be ++ tail =
        (c / 256 % 256) :: (c % 256) :: (cs.flatMap u16be ++ tail) := by
      simp [u16be]
    have hcnt : 2 * (c :: cs).length = 2 * cs.length + 2 := by
      simp [List.length_cons]
      omega
    rw [hshape, hcnt]
    show cipherScan _ (2 * cs.length + 2) acc = _
    rw [show cipherScan ((c / 256 % 256) :: (c % 256) :: (cs.flatMap u16be ++ tail))
        (2 * cs.length + 2) acc =
      cipherScan (cs.flatMap u16be ++ tail) (2 * cs.length)
        (if IsGreaseValue (c / 256 % 256 * 256 + c % 256) then acc
         else acc ++ [c / 256 % 256 * 256 + c % 256]) from rfl]
    rw [u16be_decode c hc]
    by_cases hg : IsGreaseValue c = true
    · rw [if_pos hg, ih tail acc (fun x hx => h x (by simp [hx]))]
      simp [List.filter_cons, hg]
    · rw [if_neg hg, ih tail (acc ++ [c]) (fun x hx => h x (by simp [hx]))]
      simp [List.filter_cons, hg]

theorem parseCiphers_serialized (ciphers : List Nat) (tail : List Nat)
    (hc : ∀ c ∈ ciphers, c < 65536) (hlen : 2 * ciphers.length < 65536) :
    parseCiphers (u16be (2 * ciphers.length) ++ ciphers.flatMap u16be ++ tail) =
      .ok (ciphers.filter (fun c => ¬ IsGreaseValue c), tail) := by
  unfold parseCiphers
  have hshape : u16be (2 * ciphers.length) ++ ciphers.flatMap u16be ++ tail =
      (2 * ciphers.length / 256 % 256) :: (2 * ciphers.length % 256) ::
        (ciphers.flatMap u16be ++ tail) := by
    simp [u16be]
  rw [hshape]
  rw [if_neg (by
    show ¬ ((2 * ciphers.length / 256 % 256) :: (2 * ciphers.length % 256) ::
      (ciphers.flatMap u16be ++ tail)).length < 2
    simp)]
  have hr2 : ((2 * ciphers.length / 256 % 256) :: (2 * ciphers.length % 256) ::
      (ciphers.flatMap u16be ++ tail)).drop 2 = ciphers.flatMap u16be ++ tail := rfl
  have hgetd : ((2 * ciphers.length / 256 % 256) :: (2 * ciphers.length % 256) ::
      (ciphers.flatMap u16be ++ tail)).getD 0 0 * 256 +
      ((2 * ciphers.length / 256 % 256) :: (2 * ciphers.length % 256) ::
      (ciphers.flatMap u16be ++ tail)).getD 1 0 = 2 * ciphers.length := by
    show 2 * ciphers.length / 256 % 256 * 256 + 2 * ciphers.length % 256 = _
    exact u16be_decode _ hlen
  dsimp only
  rw [hgetd, hr2]
  rw [if_neg (by
    rw [List.length_append, flatMap_u16be_length]
    omega)]
  rw [show (cipherScan (ciphers.flatMap u16be ++ tail) (2 * ciphers.length) [] >>= fun ciphers1 =>
      Except.ok (ciphers1, (ciphers.flatMap u16be ++ tail).drop (2 * ciphers.length))) =
    (cipherScan (ciphers.flatMap u16be ++ tail) (2 * ciphers.length) []).bind (fun ciphers1 =>
      Except.ok (ciphers1, (ciphers.flatMap u16be ++ tail).drop (2 * ciphers.length))) from rfl]
  rw [cipherScan_serialized ciphers tail [] hc]
  show Except.ok (_, (ciphers.flatMap u16be ++ tail).drop (2 * ciphers.length)) = _
  rw [List.drop_left' (by rw [flatMap_u16be_length])]
  simp


theorem getD_eq_head_drop (n : Nat) : ∀ l : List Nat, l.getD n 0 = (l.drop n).getD 0 0 := by
  induction n with
  | zero => intro l; rfl
  | succ m ih =>
    intro l
    cases l with
    | nil => rfl
    | cons a t => exact ih t

theorem serializeBlock_length (h : HelloSpec) (block : List Nat) :
    (serializeBlock h block).length = 9 + (helloBody h block).length := by
  simp [serializeBlock, u16be, u24be]
  omega

theorem serializeBlock_shape (h : HelloSpec) (block : List Nat) :
    serializeBlock h block =
      0x16 :: 0x03 :: 0x01 :: ((4 + (helloBody h block).length) / 256 % 256) ::
      ((4 + (helloBody h block).length) % 256) :: 0x01 ::
      ((helloBody h block).length / 65536 % 256) :: ((helloBody h block).length / 256 % 256) ::
      ((helloBody h block).length % 256) :: (h.version / 256 % 256) :: (h.version % 256) ::
      (List.replicate 32 0 ++ [h.sessionId.length] ++ h.sessionId ++
       u16be (2 * h.ciphers.length) ++ h.ciphers.flatMap u16be ++
       [h.comps.length] ++ h.comps ++ u16be block.length ++ block) := by
  simp [serializeBlock, helloBody, u16be, u24be]

theorem serializeBlock_getD5 (h : HelloSpec) (block : List Nat) :
    (serializeBlock h block).getD 5 0 = 1 := by
  rw [serializeBlock_shape]
  rfl

theorem serializeBlock_hslen (h : HelloSpec) (block : List Nat)
    (hb : (helloBody h block).length < 16777216) :
    (serializeBlock h block).getD 6 0 * 65536 + (serializeBlock h block).getD 7 0 * 256 +
      (serializeBlock h block).getD 8 0 = (helloBody h block).length := by
  rw [serializeBlock_shape]
  exact u24be_decode _ hb

theorem serializeBlock_clientVersion (h : HelloSpec) (block : List Nat)
    (hv : h.version < 65536) :
    (serializeBlock h block).getD 9 0 * 256 + (serializeBlock h block).getD 10 0 = h.version := by
  rw [serializeBlock_shape]
  exact u16be_decode _ hv

theorem serializeBlock_split43 (h : HelloSpec) (block : List Nat) :
    serializeBlock h block =
      (0x16 :: 0x03 :: 0x01 :: ((4 + (helloBody h block).length) / 256 % 256) ::
       ((4 + (helloBody h block).length) % 256) :: 0x01 ::
       ((helloBody h block).length / 65536 % 256) :: ((helloBody h block).length / 256 % 256) ::
       ((helloBody h block).length % 256) :: (h.version / 256 % 256) :: (h.version % 256) ::
       List.replicate 32 0) ++
      (h.sessionId.length :: (h.sessionId ++
        (u16be (2 * h.ciphers.length) ++ h.ciphers.flatMap u16be ++
         (h.comps.length :: (h.comps ++ (u16be block.length ++ block)))))) := by
  simp [serializeBlock, helloBody, u16be, u24be]

theorem serializeBlock_getD43 (h : HelloSpec) (block : List Nat) :
    (serializeBlock h block).getD 43 0 = h.sessionId.length := by
  rw [getD_eq_head_drop, serializeBlock_split43, List.drop_left' (by simp)]
  rfl

theorem serializeBlock_split44 (h : HelloSpec) (block : List Nat) :
    serializeBlock h block =
      (0x16 :: 0x03 :: 0x01 :: ((4 + (helloBody h block).length) / 256 % 256) ::
       ((4 + (helloBody h block).length) % 256) :: 0x01 ::
       ((helloBody h block).length / 65536 % 256) :: ((helloBody h block).length / 256 % 256) ::
       ((helloBody h block).length % 256) :: (h.version / 256 % 256) :: (h.version % 256) ::
       (List.replicate 32 0 ++ (h.sessionId.length :: h.sessionId))) ++
      (u16be (2 * h.ciphers.length) ++ h.ciphers.flatMap u16be ++
       (h.comps.length :: (h.comps ++ (u16be block.length ++ block)))) := by
  simp [serializeBlock, helloBody, u16be, u24be]

theorem serializeBlock_drop44 (h : HelloSpec) (block : List Nat) :
    (serializeBlock h block).drop (44 + h.sessionId.length) =
      u16be (2 * h.ciphers.length) ++ h.ciphers.flatMap u16be ++
       (h.comps.length :: (h.comps ++ (u16be block.length ++ block))) := by
  rw [serializeBlock_split44, List.drop_left' (by simp; omega)]

theorem parseExtensionsBlock_serialized (comps block : List Nat)
    (hb : block.length < 65536) :
    parseExtensionsBlock (comps.length :: (comps ++ (u16be block.length ++ block))) =
      scanExtensions block block.length initAcc := by
  unfold parseExtensionsBlock
  rw [if_neg (by simp)]
  dsimp only
  rw [List.getD_cons_zero]
  have hd : (comps.length :: (comps ++ (u16be block.length ++ block))).drop (1 + comps.length)
      = block.length / 256 % 256 :: block.length % 256 :: block := by
    rw [Nat.add_comm, List.drop_succ_cons, List.drop_left]
    rfl
  rw [hd, if_neg (by simp)]
  try dsimp only
  have hdec : (block.length / 256 % 256 :: block.length % 256 :: block).getD 0 0 * 256 +
      (block.length / 256 % 256 :: block.length % 256 :: block).getD 1 0 = block.length := by
    show block.length / 256 % 256 * 256 + block.length % 256 = block.length
    exact u16be_decode _ hb
  rw [hdec]
  rfl

theorem parseFields_serializeBlock (h : HelloSpec) (block : List Nat)
    (hwf : BodyWF h block) :
    parseFields (serializeBlock h block) =
      (scanExtensions block block.length initAcc).bind fun acc =>
        .ok (h.version, h.ciphers.filter (fun c => ¬ IsGreaseValue c), acc) := by
  obtain ⟨hv, hsid, hcs, hclen, hcomps, hblen, hbody⟩ := hwf
  have hb40 : 40 ≤ (helloBody h block).length := by
    rw [helloBody_length]
    omega
  unfold parseFields
  rw [if_neg (by rw [serializeBlock_length]; omega)]
  dsimp only
  rw [serializeBlock_getD5, if_neg (by decide),
      serializeBlock_hslen h block hbody, serializeBlock_length,
      if_neg (by omega), if_neg (by omega),
      serializeBlock_clientVersion h block hv,
      if_neg (by omega), if_neg (by omega),
      serializeBlock_getD43, serializeBlock_drop44,
      parseCiphers_serialized h.ciphers _ hcs hclen, exceptBind_ok]
  dsimp only
  rw [parseExtensionsBlock_serialized h.comps block hblen]
  rfl


theorem sigScan_zero (l sigs : List Nat) (c : Nat) : sigScan l 0 sigs c = .ok (sigs, c) := by
  cases l with
  | nil => rfl
  | cons a t =>
    cases t with
    | nil => rfl
    | cons b t2 => rfl

theorem sigScan_append :
    ∀ (cnt : Nat) (xs ys sigs : List Nat) (c : Nat),
      cnt % 2 = 0 → cnt ≤ xs.length →
      sigScan (xs ++ ys) cnt sigs c = sigScan xs cnt sigs c := by
  intro cnt
  induction cnt using Nat.strong_induction_on with
  | _ cnt ih =>
    intro xs ys sigs c heven hle
    rcases cnt with _ | _ | n
    · rw [sigScan_zero, sigScan_zero]
    · omega
    · have hx : 2 ≤ xs.length := by omega
      rcases xs with _ | ⟨a, xs1⟩
      · simp at hx
      rcases xs1 with _ | ⟨b, xs2⟩
      · simp at hx
      rw [show ((a :: b :: xs2) ++ ys) = a :: b :: (xs2 ++ ys) from rfl]
      rw [show sigScan (a :: b :: (xs2 ++ ys)) (n + 2) sigs c =
        (if IsGreaseValue (a * 256 + b) then sigScan (xs2 ++ ys) n sigs c
         else sigScan (xs2 ++ ys) n (sigs ++ [a * 256 + b]) (c + 1)) from rfl]
      rw [show sigScan (a :: b :: xs2) (n + 2) sigs c =
        (if IsGreaseValue (a * 256 + b) then sigScan xs2 n sigs c
         else sigScan xs2 n (sigs ++ [a * 256 + b]) (c + 1)) from rfl]
      have hn : n % 2 = 0 := by omega
      have hnle : n ≤ xs2.length := by
        simp only [List.length_cons] at hle
        omega
      by_cases hg : IsGreaseValue (a * 256 + b) = true
      · rw [if_pos hg, if_pos hg]
        exact ih n (by omega) xs2 ys sigs c hn hnle
      · rw [if_neg hg, if_neg hg]
        exact ih n (by omega) xs2 ys _ _ hn hnle

theorem sigStep_tail_irrel (t extLen : Nat) (p rest : List Nat) (acc : ScanAcc)
    (hok : t = 0x000d → 2 + (p.getD 0 0 * 256 + p.getD 1 0) ≤ p.length ∧
      (p.getD 0 0 * 256 + p.getD 1 0) % 2 = 0) :
    sigStep t extLen p (p ++ rest) acc = sigStep t extLen p p acc := by
  unfold sigStep
  by_cases ht : t = 0x000d
  · rw [if_pos ht, if_pos ht]
    obtain ⟨hle, heven⟩ := hok ht
    by_cases h2 : extLen < 2
    · rw [if_pos h2, if_pos h2]
    · rw [if_neg h2, if_neg h2]
      try dsimp only
      by_cases hinc : 2 + (p.getD 0 0 * 256 + p.getD 1 0) > extLen
      · rw [if_pos hinc, if_pos hinc]
      · rw [if_neg hinc, if_neg hinc]
        rw [List.drop_append_eq_append_drop, Nat.sub_eq_zero_of_le (by omega),
          List.drop_zero]
        rw [sigScan_append _ _ rest _ _ heven
          (by rw [List.length_drop]; omega)]
  · rw [if_neg ht, if_neg ht]

theorem processExt_tail_irrel (t : Nat) (p rest : List Nat) (acc : ScanAcc)
    (hok : t = 0x000d → 2 + (p.getD 0 0 * 256 + p.getD 1 0) ≤ p.length ∧
      (p.getD 0 0 * 256 + p.getD 1 0) % 2 = 0) :
    processExt t p.length p (p ++ rest) acc = processExt t p.length p p acc := by
  unfold processExt
  rcases halpn : alpnStep t p.length p (preExt t acc) with e | a
  · rfl
  · rw [exceptBind_ok, exceptBind_ok, sigStep_tail_irrel t p.length p rest a hok]

theorem foldExts_nil (acc : ScanAcc) : foldExts [] acc = .ok acc := rfl

theorem foldExts_cons (e : ExtSpec) (es : List ExtSpec) (acc : ScanAcc) :
    foldExts (e :: es) acc =
      if IsGreaseValue e.t then foldExts es acc
      else (processExt e.t e.payload.length e.payload e.payload acc) >>=
        fun a => foldExts es a := rfl

theorem foldExts_append (xs ys : List ExtSpec) (acc : ScanAcc) :
    foldExts (xs ++ ys) acc = foldExts xs acc >>= fun a => foldExts ys a := by
  induction xs generalizing acc with
  | nil => rw [List.nil_append, foldExts_nil, exceptBind_ok]
  | cons e es ih =>
    rw [List.cons_append, foldExts_cons, foldExts_cons]
    by_cases hg : IsGreaseValue e.t = true
    · rw [if_pos hg, if_pos hg, ih]
    · rw [if_neg hg, if_neg hg]
      rcases hpe : processExt e.t e.payload.length e.payload e.payload acc with err | a
      · rw [exceptBind_error, exceptBind_error, exceptBind_error]
      · rw [exceptBind_ok, exceptBind_ok]
        exact ih a

theorem scanExtGo_extBytes :
    ∀ (exts : List ExtSpec) (fuel : Nat) (rest : List Nat) (extra : Nat) (acc : ScanAcc),
      (∀ e ∈ exts, e.t < 65536 ∧ e.payload.length < 65536 ∧ extDataOK e) →
      (extBytes exts ++ rest).length ≤ fuel →
      scanExtGo fuel (extBytes exts ++ rest) ((extBytes exts).length + extra) acc =
        foldExts exts acc >>= fun a => scanExtensions rest extra a := by
  intro exts
  induction exts with
  | nil =>
    intro fuel rest extra acc hwf hfuel
    rw [foldExts_nil, exceptBind_ok]
    rw [show extBytes [] ++ rest = rest from rfl] at hfuel ⊢
    rw [show (extBytes []).length + extra = extra from by
      rw [show extBytes [] = ([] : List Nat) from rfl]
      simp]
    exact scanExtGo_fuel_irrel fuel rest.length rest extra acc hfuel le_rfl
  | cons e es ih =>
    intro fuel rest extra acc hwf hfuel
    obtain ⟨ht, hpl, hdok⟩ := hwf e (by simp)
    have hwf' : ∀ x ∈ es, x.t < 65536 ∧ x.payload.length < 65536 ∧ extDataOK x :=
      fun x hx => hwf x (by simp [hx])
    have hshape : extBytes (e :: es) ++ rest =
        (e.t / 256 % 256) :: (e.t % 256) :: (e.payload.length / 256 % 256) ::
        (e.payload.length % 256) :: (e.payload ++ (extBytes es ++ rest)) := by
      simp [extBytes, serializeExt, u16be]
    have hlen : (extBytes (e :: es)).length = 4 + e.payload.length + (extBytes es).length := by
      simp [extBytes, serializeExt, u16be]
      omega
    have hflen : (extBytes (e :: es) ++ rest).length =
        4 + e.payload.length + (extBytes es ++ rest).length := by
      rw [List.length_append, hlen, List.length_append]
      omega
    rcases fuel with _ | m
    · exfalso
      rw [hflen] at hfuel
      omega
    have hfm : (extBytes es ++ rest).length ≤ m := by
      rw [hflen] at hfuel
      omega
    rw [hshape, hlen]
    unfold scanExtGo
    rw [if_pos (by
      refine ⟨by omega, ?_⟩
      simp)]
    dsimp only
    have hdec1 : ((e.t / 256 % 256) :: (e.t % 256) :: (e.payload.length / 256 % 256) ::
        (e.payload.length % 256) :: (e.payload ++ (extBytes es ++ rest))).getD 0 0 * 256 +
        ((e.t / 256 % 256) :: (e.t % 256) :: (e.payload.length / 256 % 256) ::
        (e.payload.length % 256) :: (e.payload ++ (extBytes es ++ rest))).getD 1 0 = e.t := by
      show e.t / 256 % 256 * 256 + e.t % 256 = e.t
      exact u16be_decode _ ht
    have hdec2 : ((e.t / 256 % 256) :: (e.t % 256) :: (e.payload.length / 256 % 256) ::
        (e.payload.length % 256) :: (e.payload ++ (extBytes es ++ rest))).getD 2 0 * 256 +
        ((e.t / 256 % 256) :: (e.t % 256) :: (e.payload.length / 256 % 256) ::
        (e.payload.length % 256) :: (e.payload ++ (extBytes es ++ rest))).getD 3 0 =
        e.payload.length := by
      show e.payload.length / 256 % 256 * 256 + e.payload.length % 256 = e.payload.length
      exact u16be_decode _ hpl
    rw [hdec1, hdec2]
    rw [show ((e.t / 256 % 256) :: (e.t % 256) :: (e.payload.length / 256 % 256) ::
        (e.payload.length % 256) :: (e.payload ++ (extBytes es ++ rest))).drop 4 =
        e.payload ++ (extBytes es ++ rest) from rfl]
    rw [if_neg (by
      push_neg
      refine ⟨by omega, ?_⟩
      rw [List.length_append]
      omega)]
    have htake : (e.payload ++ (extBytes es ++ rest)).take e.payload.length = e.payload :=
      List.take_left' rfl
    have hdrop : (e.payload ++ (extBytes es ++ rest)).drop e.payload.length =
        extBytes es ++ rest := List.drop_left' rfl
    have harith : 4 + e.payload.length + (extBytes es).length + extra - 4 - e.payload.length
        = (extBytes es).length + extra := by omega
    by_cases hg : IsGreaseValue e.t = true
    · rw [if_pos hg, hdrop, harith, ih m rest extra acc hwf' hfm]
      rw [foldExts_cons, if_pos hg]
    · rw [if_neg hg, htake]
      have hirr := processExt_tail_irrel e.t e.payload (extBytes es ++ rest) acc
        (fun h0d => ⟨(hdok.2.1 h0d).2.1, (hdok.2.1 h0d).2.2⟩)
      rw [hirr, foldExts_cons, if_neg hg]
      rcases hpe : processExt e.t e.payload.length e.payload e.payload acc with err | a
      · rw [exceptBind_error, exceptBind_error, exceptBind_error]
      · rw [exceptBind_ok, exceptBind_ok, hdrop, harith, ih m rest extra a hwf' hfm]

theorem scanExtensions_extBytes (exts : List ExtSpec) (rest : List Nat) (extra : Nat)
    (acc : ScanAcc)
    (hwf : ∀ e ∈ exts, e.t < 65536 ∧ e.payload.length < 65536 ∧ extDataOK e) :
    scanExtensions (extBytes exts ++ rest) ((extBytes exts).length + extra) acc =
      foldExts exts acc >>= fun a => scanExtensions rest extra a :=
  scanExtGo_extBytes exts _ rest extra acc hwf le_rfl

theorem scanExtGo_break1 (n t dl : Nat) (junk : List Nat) (acc : ScanAcc)
    (hdl : dl < 65536) (hover : junk.length < dl) :
    scanExtGo (n + 1) (u16be t ++ u16be dl ++ junk) (4 + junk.length) acc = .ok acc := by
  rw [show u16be t ++ u16be dl ++ junk =
      (t / 256 % 256) :: (t % 256) :: (dl / 256 % 256) :: (dl % 256) :: junk from by
    simp [u16be]]
  unfold scanExtGo
  rw [if_pos (by refine ⟨by omega, by simp⟩)]
  dsimp only
  have hdec : ((t / 256 % 256) :: (t % 256) :: (dl / 256 % 256) ::
      (dl % 256) :: junk).getD 2 0 * 256 +
      ((t / 256 % 256) :: (t % 256) :: (dl / 256 % 256) :: (dl % 256) :: junk).getD 3 0
      = dl := by
    show dl / 256 % 256 * 256 + dl % 256 = dl
    exact u16be_decode _ hdl
  rw [hdec, if_pos (Or.inl (by omega))]

theorem scanExtensions_break (t dl : Nat) (junk : List Nat) (acc : ScanAcc)
    (hdl : dl < 65536) (hover : junk.length < dl) :
    scanExtensions (u16be t ++ u16be dl ++ junk) (4 + junk.length) acc = .ok acc := by
  unfold scanExtensions
  rw [scanExtGo_fuel_irrel _ (junk.length + 4) _ _ _ le_rfl
    (by simp [u16be])]
  exact scanExtGo_break1 (junk.length + 3) t dl junk acc hdl hover

theorem parseFields_serialize (h : HelloSpec) (hwf : HelloWF h) :
    parseFields (serialize h) =
      foldExts h.exts initAcc >>= fun acc =>
        .ok (h.version, h.ciphers.filter (fun c => ¬ IsGreaseValue c), acc) := by
  obtain ⟨hb, hext⟩ := hwf
  rw [show serialize h = serializeBlock h (extBytes h.exts) from rfl]
  rw [parseFields_serializeBlock h _ hb]
  have hsc : scanExtensions (extBytes h.exts) (extBytes h.exts).length initAcc =
      foldExts h.exts initAcc >>= fun a => scanExtensions [] 0 a := by
    have hx := scanExtensions_extBytes h.exts [] 0 initAcc hext
    rw [List.append_nil, Nat.add_zero] at hx
    exact hx
  rw [hsc]
  rcases hfe : foldExts h.exts initAcc with err | a
  · rfl
  · rfl


theorem svScan_zero (l : List Nat) (best : Nat) : svScan l 0 best = best := by
  cases l with
  | nil => rfl
  | cons a t =>
    cases t with
    | nil => rfl
    | cons b t2 => rfl

theorem svScan_flatMap :
    ∀ (vs : List Nat) (best : Nat), (∀ v ∈ vs, v < 65536) →
      svScan (vs.flatMap u16be) (2 * vs.length) best = svFold vs best := by
  intro vs
  induction vs with
  | nil =>
    intro best h
    rw [show ([] : List Nat).flatMap u16be = [] from rfl,
      show 2 * ([] : List Nat).length = 0 from rfl, svScan_zero]
    rfl
  | cons v vs ih =>
    intro best h
    have hv : v < 65536 := h v (by simp)
    rw [show (v :: vs).flatMap u16be =
      (v / 256 % 256) :: (v % 256) :: vs.flatMap u16be from by simp [u16be]]
    rw [show 2 * (v :: vs).length = 2 * vs.length + 2 from by
      rw [List.length_cons]; omega]
    rw [show svScan ((v / 256 % 256) :: (v % 256) :: vs.flatMap u16be)
        (2 * vs.length + 2) best =
      svScan (vs.flatMap u16be) (2 * vs.length)
        (if ¬ IsGreaseValue (v / 256 % 256 * 256 + v % 256) ∧
            best < v / 256 % 256 * 256 + v % 256
         then v / 256 % 256 * 256 + v % 256 else best) from rfl]
    rw [u16be_decode v hv, ih _ (fun x hx => h x (by simp [hx]))]
    rfl

theorem processExt_sv (vs : List Nat) (acc : ScanAcc) (hv : ∀ v ∈ vs, v < 65536) :
    processExt 0x002b (svPayload vs).length (svPayload vs) (svPayload vs) acc =
      .ok { preExt 0x002b acc with
            svFound := true
            highest := svFold vs acc.highest } := by
  unfold processExt
  rw [show alpnStep 0x002b (svPayload vs).length (svPayload vs) (preExt 0x002b acc) =
    .ok (preExt 0x002b acc) from by
      unfold alpnStep
      rw [if_neg (by intro hc; exact absurd hc.1 (by decide))]]
  rw [exceptBind_ok]
  rw [show sigStep 0x002b (svPayload vs).length (svPayload vs) (svPayload vs)
      (preExt 0x002b acc) = .ok (preExt 0x002b acc) from by
    unfold sigStep
    rw [if_neg (by decide)]]
  rw [exceptBind_ok]
  unfold svStep
  rw [if_pos rfl]
  try dsimp only
  have hplen : (svPayload vs).length = 1 + 2 * vs.length := by
    rw [svPayload, List.length_cons, flatMap_u16be_length]
    omega
  have hget : (svPayload vs).getD 0 0 = 2 * vs.length := rfl
  rw [if_neg (by omega)]
  rw [if_neg (by omega)]
  rw [show (svPayload vs).drop 1 = vs.flatMap u16be from rfl, hget,
    svScan_flatMap vs _ hv]
  rfl


theorem getD_drop_one (l : List Nat) (k : Nat) :
    (l.drop k).getD 1 0 = l.getD (k + 1) 0 := by
  rw [getD_eq_head_drop 1 (l.drop k), List.drop_drop]
  exact (getD_eq_head_drop _ _).symm

theorem helloBodyL_length (h : HelloSpec) (L : Nat) (block : List Nat) :
    (helloBodyL h L block).length =
      40 + h.sessionId.length + 2 * h.ciphers.length + h.comps.length + block.length := by
  simp only [helloBodyL, List.length_append, flatMap_u16be_length, u16be,
    List.length_cons, List.length_nil, List.length_replicate]
  omega

theorem serializeBlockL_length (h : HelloSpec) (L : Nat) (block : List Nat) :
    (serializeBlockL h L block).length = 9 + (helloBodyL h L block).length := by
  simp [serializeBlockL, u16be, u24be]
  omega

theorem serializeBlockL_shape (h : HelloSpec) (L : Nat) (block : List Nat) :
    serializeBlockL h L block =
      0x16 :: 0x03 :: 0x01 :: ((4 + (helloBodyL h L block).length) / 256 % 256) ::
      ((4 + (helloBodyL h L block).length) % 256) :: 0x01 ::
      ((helloBodyL h L block).length / 65536 % 256) ::
      ((helloBodyL h L block).length / 256 % 256) ::
      ((helloBodyL h L block).length % 256) :: (h.version / 256 % 256) :: (h.version % 256) ::
      (List.replicate 32 0 ++ [h.sessionId.length] ++ h.sessionId ++
       u16be (2 * h.ciphers.length) ++ h.ciphers.flatMap u16be ++
       [h.comps.length] ++ h.comps ++ u16be L ++ block) := by
  simp [serializeBlockL, helloBodyL, u16be, u24be]

theorem serializeBlockL_getD5 (h : HelloSpec) (L : Nat) (block : List Nat) :
    (serializeBlockL h L block).getD 5 0 = 1 := by
  rw [serializeBlockL_shape]
  rfl

theorem serializeBlockL_hslen (h : HelloSpec) (L : Nat) (block : List Nat)
    (hb : (helloBodyL h L block).length < 16777216) :
    (serializeBlockL h L block).getD 6 0 * 65536 + (serializeBlockL h L block).getD 7 0 * 256 +
      (serializeBlockL h L block).getD 8 0 = (helloBodyL h L block).length := by
  rw [serializeBlockL_shape]
  exact u24be_decode _ hb

theorem serializeBlockL_clientVersion (h : HelloSpec) (L : Nat) (block : List Nat)
    (hv : h.version < 65536) :
    (serializeBlockL h L block).getD 9 0 * 256 + (serializeBlockL h L block).getD 10 0 =
      h.version := by
  rw [serializeBlockL_shape]
  exact u16be_decode _ hv

theorem serializeBlockL_split43 (h : HelloSpec) (L : Nat) (block : List Nat) :
    serializeBlockL h L block =
      (0x16 :: 0x03 :: 0x01 :: ((4 + (helloBodyL h L block).length) / 256 % 256) ::
       ((4 + (helloBodyL h L block).length) % 256) :: 0x01 ::
       ((helloBodyL h L block).length / 65536 % 256) ::
       ((helloBodyL h L block).length / 256 % 256) ::
       ((helloBodyL h L block).length % 256) :: (h.version / 256 % 256) :: (h.version % 256) ::
       List.replicate 32 0) ++
      (h.sessionId.length :: (h.sessionId ++
        (u16be (2 * h.ciphers.length) ++ h.ciphers.flatMap u16be ++
         (h.comps.length :: (h.comps ++ (u16be L ++ block)))))) := by
  simp [serializeBlockL, helloBodyL, u16be, u24be]

theorem serializeBlockL_getD43 (h : HelloSpec) (L : Nat) (block : List Nat) :
    (serializeBlockL h L block).getD 43 0 = h.sessionId.length := by
  rw [getD_eq_head_drop, serializeBlockL_split43, List.drop_left' (by simp)]
  rfl

theorem serializeBlockL_split44 (h : HelloSpec) (L : Nat) (block : List Nat) :
    serializeBlockL h L block =
      (0x16 :: 0x03 :: 0x01 :: ((4 + (helloBodyL h L block).length) / 256 % 256) ::
       ((4 + (helloBodyL h L block).length) % 256) :: 0x01 ::
       ((helloBodyL h L block).length / 65536 % 256) ::
       ((helloBodyL h L block).length / 256 % 256) ::
       ((helloBodyL h L block).length % 256) :: (h.version / 256 % 256) :: (h.version % 256) ::
       (List.replicate 32 0 ++ (h.sessionId.length :: h.sessionId))) ++
      (u16be (2 * h.ciphers.length) ++ h.ciphers.flatMap u16be ++
       (h.comps.length :: (h.comps ++ (u16be L ++ block)))) := by
  simp [serializeBlockL, helloBodyL, u16be, u24be]

theorem serializeBlockL_drop44 (h : HelloSpec) (L : Nat) (block : List Nat) :
    (serializeBlockL h L block).drop (44 + h.sessionId.length) =
      u16be (2 * h.ciphers.length) ++ h.ciphers.flatMap u16be ++
       (h.comps.length :: (h.comps ++ (u16be L ++ block))) := by
  rw [serializeBlockL_split44, List.drop_left' (by simp; omega)]

theorem parseExtensionsBlock_serializedL (comps block : List Nat) (L : Nat)
    (hL : L < 65536) :
    parseExtensionsBlock (comps.length :: (comps ++ (u16be L ++ block))) =
      scanExtensions block L initAcc := by
  unfold parseExtensionsBlock
  rw [if_neg (by simp)]
  dsimp only
  rw [List.getD_cons_zero]
  have hd : (comps.length :: (comps ++ (u16be L ++ block))).drop (1 + comps.length)
      = L / 256 % 256 :: L % 256 :: block := by
    rw [Nat.add_comm, List.drop_succ_cons, List.drop_left]
    rfl
  rw [hd, if_neg (by simp)]
  try dsimp only
  have hdec : (L / 256 % 256 :: L % 256 :: block).getD 0 0 * 256 +
      (L / 256 % 256 :: L % 256 :: block).getD 1 0 = L := by
    show L / 256 % 256 * 256 + L % 256 = L
    exact u16be_decode _ hL
  rw [hdec]
  rfl

theorem parseFields_serializeBlockL (h : HelloSpec) (L : Nat) (block : List Nat)
    (hv : h.version < 65536) (hcs : ∀ c ∈ h.ciphers, c < 65536)
    (hclen : 2 * h.ciphers.length < 65536) (hL : L < 65536)
    (hbody : (helloBodyL h L block).length < 16777216) :
    parseFields (serializeBlockL h L block) =
      (scanExtensions block L initAcc).bind fun acc =>
        .ok (h.version, h.ciphers.filter (fun c => ¬ IsGreaseValue c), acc) := by
  have hb40 : 40 ≤ (helloBodyL h L block).length := by
    rw [helloBodyL_length]
    omega
  unfold parseFields
  rw [if_neg (by rw [serializeBlockL_length]; omega)]
  dsimp only
  rw [serializeBlockL_getD5, if_neg (by decide),
      serializeBlockL_hslen h L block hbody, serializeBlockL_length,
      if_neg (by omega), if_neg (by omega),
      serializeBlockL_clientVersion h L block hv,
      if_neg (by omega), if_neg (by omega),
      serializeBlockL_getD43, serializeBlockL_drop44,
      parseCiphers_serialized h.ciphers _ hcs hclen, exceptBind_ok]
  dsimp only
  rw [parseExtensionsBlock_serializedL h.comps block L hL]
  rfl

/-! ## C2 — length-field overruns inside the extensions block -/

/-- C2 counterexample: in `c2bytes` the single extension header declares data
length `0x00ff = 255` while no bytes follow it (the 56-byte buffer ends right
after the header), yet `ParseJA4` succeeds, returning a fingerprint computed
from the fields decoded so far instead of a parse error. -/
theorem C2_counterexample :
    c2bytes.getD 54 0 * 256 + c2bytes.getD 55 0 = 255 ∧
    c2bytes.length = 56 ∧
    ParseJA4 c2bytes 116 =
      .ok ("t12i010000_" ++ ComputeTruncatedSHA256 "1301" ++ "_000000000000") := by
  refine ⟨by decide, by decide, ?_⟩
  rfl

/-- C2 amended: a 3-byte handshake-message length or a 2-byte cipher-suites
length that would read past the buffer end yields a parse error and no
fingerprint; but neither the extensions-block length nor a per-extension
declared length is validated against the buffer end — an oversized
extensions-block length lets the scan stop at the payload end, an oversized
trailing per-extension declared length ends the scan, and in both cases
`ParseJA4` returns the same successful fingerprint as the exact-length
encoding, computed from the extensions decoded so far. -/
theorem C2_amended (protocol : Nat) :
    (∀ payload : List Nat, 9 ≤ payload.length → payload.getD 5 0 = 1 →
      payload.length <
        9 + (payload.getD 6 0 * 65536 + payload.getD 7 0 * 256 + payload.getD 8 0) →
      ParseJA4 payload protocol =
        .error (.msg ("imcomplete Client Hello message, payload length: " ++
          toString payload.length ++ ", handshake length + offset: " ++
          toString (9 + (payload.getD 6 0 * 65536 + payload.getD 7 0 * 256 +
            payload.getD 8 0))))) ∧
    (∀ payload : List Nat, 44 ≤ payload.length → payload.getD 5 0 = 1 →
      9 + (payload.getD 6 0 * 65536 + payload.getD 7 0 * 256 + payload.getD 8 0) ≤
        payload.length →
      2 ≤ payload.length - (44 + payload.getD 43 0) →
      payload.length - (44 + payload.getD 43 0) - 2 <
        payload.getD (44 + payload.getD 43 0) 0 * 256 +
          payload.getD (44 + payload.getD 43 0 + 1) 0 →
      ParseJA4 payload protocol = .error (.msg "incomplete cipher suites data")) ∧
    (∀ (h : HelloSpec) (L : Nat), HelloWF h → L < 65536 →
      (extBytes h.exts).length < L →
      ParseJA4 (serializeBlockL h L (extBytes h.exts)) protocol =
        ParseJA4 (serialize h) protocol) ∧
    (∀ (h : HelloSpec) (t dl : Nat) (junk : List Nat), HelloWF h →
      BodyWF h (extBytes h.exts ++ (u16be t ++ u16be dl ++ junk)) →
      dl < 65536 → junk.length < dl →
      ParseJA4 (serializeBlock h (extBytes h.exts ++ (u16be t ++ u16be dl ++ junk)))
          protocol =
        ParseJA4 (serialize h) protocol) := by
  refine ⟨?_, ?_, ?_, ?_⟩
  · intro payload h9 h5 hhl
    unfold ParseJA4 parseFields
    rw [if_neg (by omega)]
    dsimp only
    rw [if_neg (by omega), if_pos (by omega)]
    rfl
  · intro payload h44 h5 hhl hr1 hcsl
    unfold ParseJA4 parseFields
    rw [if_neg (by omega)]
    dsimp only
    rw [if_neg (by omega), if_neg (by omega), if_neg (by omega),
      if_neg (by omega), if_neg (by omega)]
    unfold parseCiphers
    rw [if_neg (by rw [List.length_drop]; omega)]
    dsimp only
    rw [(getD_eq_head_drop (44 + payload.getD 43 0) payload).symm,
      getD_drop_one payload (44 + payload.getD 43 0)]
    rw [if_pos (by rw [List.length_drop, List.length_drop]; omega)]
    rfl
  · intro h L hwf hL hover
    obtain ⟨⟨hv, hsid, hcs, hclen, hcomps, hblen, hbody⟩, hext⟩ := hwf
    have hbodyL : (helloBodyL h L (extBytes h.exts)).length < 16777216 := by
      rw [helloBodyL_length]
      rw [helloBody_length] at hbody
      omega
    unfold ParseJA4
    rw [parseFields_serializeBlockL h L (extBytes h.exts) hv hcs hclen hL hbodyL,
      parseFields_serialize h ⟨⟨hv, hsid, hcs, hclen, hcomps, hblen, hbody⟩, hext⟩]
    have heq : scanExtensions (extBytes h.exts) L initAcc =
        foldExts h.exts initAcc >>= fun a =>
          scanExtensions [] (L - (extBytes h.exts).length) a := by
      have hx := scanExtensions_extBytes h.exts []
        (L - (extBytes h.exts).length) initAcc hext
      rw [List.append_nil,
        show (extBytes h.exts).length + (L - (extBytes h.exts).length) = L from
          by omega] at hx
      exact hx
    rw [heq]
    rcases hfe : foldExts h.exts initAcc with err | a
    · rfl
    · rfl
  · intro h t dl junk hwf hwf' hdl hover
    unfold ParseJA4
    rw [parseFields_serializeBlock h _ hwf', parseFields_serialize h hwf]
    have hlen : (extBytes h.exts ++ (u16be t ++ u16be dl ++ junk)).length =
        (extBytes h.exts).length + (4 + junk.length) := by
      simp [u16be]
      omega
    rw [hlen, scanExtensions_extBytes h.exts _ _ initAcc hwf.2]
    rcases hfe : foldExts h.exts initAcc with err | a
    · rfl
    · rw [exceptBind_ok, scanExtensions_break t dl junk a hdl hover]
      rfl

/-- C2 witness: the four parts of the amended statement at concrete inputs —
a handshake length and a cipher-suites length declared past the buffer end
(parse errors), and an oversized extensions-block length and a trailing
oversized per-extension length (fingerprint unchanged). -/
theorem C2_amended_witness :
    (ParseJA4 [0x16, 0x03, 0x01, 0x00, 0x06, 0x01, 0x00, 0x00, 0xC8, 0x00, 0x00] 116 =
      .error (.msg ("imcomplete Client Hello message, payload length: 11, " ++
        "handshake length + offset: 209"))) ∧
    (ParseJA4 ([0x16, 0x03, 0x01, 0x00, 0x29, 0x01, 0x00, 0x00, 0x25, 0x03, 0x03] ++
        List.replicate 32 0 ++ [0x00, 0x00, 0x0A]) 116 =
      .error (.msg "incomplete cipher suites data")) ∧
    (ParseJA4 (serializeBlockL (⟨0x0303, [], [0x1301], [0],
        [⟨0x0023, []⟩]⟩ : HelloSpec) 65535
        (extBytes [⟨0x0023, []⟩])) 116 =
      ParseJA4 (serialize (⟨0x0303, [], [0x1301], [0],
        [⟨0x0023, []⟩]⟩ : HelloSpec)) 116) ∧
    (ParseJA4 (serializeBlock (⟨0x0303, [], [0x1301], [0],
        [⟨0x002b, [2, 3, 4]⟩]⟩ : HelloSpec)
        (extBytes [⟨0x002b, [2, 3, 4]⟩] ++ (u16be 10 ++ u16be 255 ++ []))) 116 =
      ParseJA4 (serialize (⟨0x0303, [], [0x1301], [0],
        [⟨0x002b, [2, 3, 4]⟩]⟩ : HelloSpec)) 116) :=
  ⟨(C2_amended 116).1 [0x16, 0x03, 0x01, 0x00, 0x06, 0x01, 0x00, 0x00, 0xC8, 0x00, 0x00]
      (by decide) (by decide) (by decide),
   (C2_amended 116).2.1 ([0x16, 0x03, 0x01, 0x00, 0x29, 0x01, 0x00, 0x00, 0x25, 0x03, 0x03] ++
        List.replicate 32 0 ++ [0x00, 0x00, 0x0A])
      (by decide) (by decide) (by decide) (by decide) (by decide),
   (C2_amended 116).2.2.1 ⟨0x0303, [], [0x1301], [0], [⟨0x0023, []⟩]⟩ 65535
      (by decide) (by decide) (by decide),
   (C2_amended 116).2.2.2 ⟨0x0303, [], [0x1301], [0], [⟨0x002b, [2, 3, 4]⟩]⟩ 10 255 []
      (by decide) (by decide) (by decide) (by decide)⟩

/-! ## C5 — GREASE insertion leaves the fingerprint unchanged -/

/-- C5: inserting a GREASE-pattern code into the cipher-suite list, inserting
a GREASE-typed extension into the extension list, or inserting a GREASE entry
into a supported_versions version list of an otherwise fixed well-formed
ClientHello leaves the `ParseJA4` fingerprint of the serialized record
unchanged. -/
theorem C5_grease_insert (g protocol : Nat) (hg : IsGreaseValue g = true) :
    (∀ (h : HelloSpec) (c1 c2 : List Nat), h.ciphers = c1 ++ c2 →
      HelloWF h → HelloWF { h with ciphers := c1 ++ g :: c2 } →
      ParseJA4 (serialize { h with ciphers := c1 ++ g :: c2 }) protocol =
        ParseJA4 (serialize h) protocol) ∧
    (∀ (h : HelloSpec) (e1 e2 : List ExtSpec), h.exts = e1 ++ e2 →
      HelloWF h → HelloWF { h with exts := e1 ++ ⟨g, []⟩ :: e2 } →
      ParseJA4 (serialize { h with exts := e1 ++ ⟨g, []⟩ :: e2 }) protocol =
        ParseJA4 (serialize h) protocol) ∧
    (∀ (h : HelloSpec) (e1 e2 : List ExtSpec) (w1 w2 : List Nat),
      (∀ v ∈ w1 ++ w2, v < 65536) → g < 65536 →
      HelloWF { h with exts := e1 ++ ⟨0x002b, svPayload (w1 ++ w2)⟩ :: e2 } →
      HelloWF { h with exts := e1 ++ ⟨0x002b, svPayload (w1 ++ g :: w2)⟩ :: e2 } →
      ParseJA4 (serialize
          { h with exts := e1 ++ ⟨0x002b, svPayload (w1 ++ g :: w2)⟩ :: e2 }) protocol =
        ParseJA4 (serialize
          { h with exts := e1 ++ ⟨0x002b, svPayload (w1 ++ w2)⟩ :: e2 }) protocol) := by
  refine ⟨?_, ?_, ?_⟩
  · intro h c1 c2 hce hwf hwf'
    unfold ParseJA4
    rw [parseFields_serialize _ hwf', parseFields_serialize h hwf]
    have hfilter : (c1 ++ g :: c2).filter (fun c => ¬ IsGreaseValue c) =
        (c1 ++ c2).filter (fun c => ¬ IsGreaseValue c) := by
      simp [List.filter_append, List.filter_cons, hg]
    dsimp only
    rw [hce, hfilter]
  · intro h e1 e2 hee hwf hwf'
    unfold ParseJA4
    rw [parseFields_serialize _ hwf', parseFields_serialize h hwf]
    dsimp only
    rw [hee]
    have hfe : ∀ acc, foldExts (e1 ++ ⟨g, []⟩ :: e2) acc = foldExts (e1 ++ e2) acc := by
      intro acc
      rw [foldExts_append, foldExts_append]
      rcases hf1 : foldExts e1 acc with err | a
      · rfl
      · rw [exceptBind_ok, exceptBind_ok, foldExts_cons, if_pos hg]
    rw [hfe]
  · intro h e1 e2 w1 w2 hvall hglt hwf1 hwf2
    unfold ParseJA4
    rw [parseFields_serialize _ hwf2, parseFields_serialize _ hwf1]
    dsimp only
    have hva : ∀ v ∈ w1 ++ g :: w2, v < 65536 := by
      intro v hv
      rcases List.mem_append.mp hv with h1 | h2
      · exact hvall v (by simp [h1])
      · rcases List.mem_cons.mp h2 with rfl | h2'
        · exact hglt
        · exact hvall v (by simp [h2'])
    have hvb : ∀ v ∈ w1 ++ w2, v < 65536 := hvall
    have hfold : svFold (w1 ++ g :: w2) = svFold (w1 ++ w2) := by
      funext b
      unfold svFold
      rw [List.foldl_append, List.foldl_append, List.foldl_cons]
      congr 1
      simp [hg]
    have hsv : ∀ acc, foldExts (e1 ++ ⟨0x002b, svPayload (w1 ++ g :: w2)⟩ :: e2) acc =
        foldExts (e1 ++ ⟨0x002b, svPayload (w1 ++ w2)⟩ :: e2) acc := by
      intro acc
      rw [foldExts_append, foldExts_append]
      rcases hf1 : foldExts e1 acc with err | a
      · rfl
      · rw [exceptBind_ok, exceptBind_ok, foldExts_cons, foldExts_cons,
          if_neg (show ¬ IsGreaseValue 0x002b = true by decide),
          if_neg (show ¬ IsGreaseValue 0x002b = true by decide),
          processExt_sv (w1 ++ g :: w2) a hva, processExt_sv (w1 ++ w2) a hvb,
          hfold]
    rw [hsv]

/-- C5 witness: the three insertions at concrete ClientHello messages with
the GREASE code `0x0A0A`. -/
theorem C5_grease_insert_witness :
    (ParseJA4 (serialize (⟨0x0303, [], [0x1301, 0x0a0a, 0x1302], [0],
        []⟩ : HelloSpec)) 116 =
      ParseJA4 (serialize (⟨0x0303, [], [0x1301, 0x1302], [0], []⟩ : HelloSpec)) 116) ∧
    (ParseJA4 (serialize (⟨0x0303, [], [0x1301], [0],
        [⟨0x0a0a, []⟩, ⟨0x0023, []⟩]⟩ : HelloSpec)) 116 =
      ParseJA4 (serialize (⟨0x0303, [], [0x1301], [0],
        [⟨0x0023, []⟩]⟩ : HelloSpec)) 116) ∧
    (ParseJA4 (serialize (⟨0x0303, [], [0x1301], [0],
        [⟨0x002b, svPayload [0x0a0a, 0x0304]⟩]⟩ : HelloSpec)) 116 =
      ParseJA4 (serialize (⟨0x0303, [], [0x1301], [0],
        [⟨0x002b, svPayload [0x0304]⟩]⟩ : HelloSpec)) 116) :=
  ⟨(C5_grease_insert 0x0a0a 116 (by decide)).1
      ⟨0x0303, [], [0x1301, 0x1302], [0], []⟩ [0x1301] [0x1302] rfl
      (by decide) (by decide),
   (C5_grease_insert 0x0a0a 116 (by decide)).2.1
      ⟨0x0303, [], [0x1301], [0], [⟨0x0023, []⟩]⟩ [] [⟨0x0023, []⟩] rfl
      (by decide) (by decide),
   (C5_grease_insert 0x0a0a 116 (by decide)).2.2
      ⟨0x0303, [], [0x1301], [0], []⟩ [] [] [] [0x0304]
      (by decide) (by decide) (by decide) (by decide)⟩

end SpoofJA4
